import Mathlib

/-!
Shallow embedding of the alikia/http-parser TypeScript repository
(src/errors.ts, src/request.ts, src/response.ts, src/headers.ts,
src/parser.ts) and proofs about the claims of its specification.

Modelling conventions:
* JavaScript strings are `List Char` (sequences of code points); byte arrays
  (`Uint8Array`) are `List Nat` with every element < 256.
* JavaScript library routines used by the sources (`String.prototype.trim`,
  `toLowerCase`, `split`, `indexOf`, `includes`, `Number`, `parseInt`,
  `TextEncoder`/`TextDecoder`) are modelled by the `js...`/`utf8...`
  definitions below, faithful on the ASCII range the parser operates on.
* Fallible routines return `Option`; the mutable `HttpParser` class becomes
  a record threaded through each method.
-/

namespace HttpParserModel

/-- Carriage return, code 13. -/
def chCR : Char := Char.ofNat 13

/-- Line feed, code 10. -/
def chLF : Char := Char.ofNat 10

/-- Plus sign, code 43. -/
def chPlus : Char := Char.ofNat 43

/-- Minus sign, code 45. -/
def chMinus : Char := Char.ofNat 45

/-- Digit zero, code 48. -/
def chZero : Char := Char.ofNat 48

/-- Decimal point, code 46. -/
def chDot : Char := Char.ofNat 46

/-- Lowercase letter e, code 101. -/
def chElow : Char := Char.ofNat 101

/-- Uppercase letter E, code 69. -/
def chEup : Char := Char.ofNat 69

/-- Lowercase letter x, code 120. -/
def chXlow : Char := Char.ofNat 120

/-- Uppercase letter X, code 88. -/
def chXup : Char := Char.ofNat 88

/-- Lowercase letter o, code 111. -/
def chOlow : Char := Char.ofNat 111

/-- Uppercase letter O, code 79. -/
def chOup : Char := Char.ofNat 79

/-- Lowercase letter b, code 98. -/
def chBlow : Char := Char.ofNat 98

/-- Uppercase letter B, code 66. -/
def chBup : Char := Char.ofNat 66

/-- Colon, code 58. -/
def chColon : Char := Char.ofNat 58

/-- Semicolon, code 59. -/
def chSemicolon : Char := Char.ofNat 59

/-- Forward slash, code 47. -/
def chSlash : Char := Char.ofNat 47

/-- Asterisk, code 42. -/
def chStar : Char := Char.ofNat 42

/-- Space, code 32. -/
def chSpace : Char := Char.ofNat 32

/-- Modelled: the ECMAScript WhiteSpace/LineTerminator predicate used by
`String.prototype.trim` and `parseInt`, restricted to the ASCII range (the
sources only ever trim ASCII header bytes). -/
def isJsWhitespace (c : Char) : Bool :=
  c.toNat = 9 || c.toNat = 10 || c.toNat = 11 || c.toNat = 12 ||
  c.toNat = 13 || c.toNat = 32

/-- Modelled: `String.prototype.trim`. -/
def jsTrim (s : List Char) : List Char :=
  ((s.dropWhile isJsWhitespace).reverse.dropWhile isJsWhitespace).reverse

/-- Modelled: `String.prototype.toLowerCase` on one character, ASCII range. -/
def jsToLowerChar (c : Char) : Char :=
  if 65 ≤ c.toNat && c.toNat ≤ 90 then Char.ofNat (c.toNat + 32) else c

/-- Modelled: `String.prototype.toLowerCase`, ASCII range. -/
def jsToLower (s : List Char) : List Char := s.map jsToLowerChar

/-- Does `needle` occur at the very start of `hay`? Helper for `containsSeq`
and the model of `String.prototype.startsWith`. -/
def seqAt : List Char → List Char → Bool
  | [], _ => true
  | _ :: _, [] => false
  | a :: as, b :: bs => a = b && seqAt as bs

/-- Modelled: `String.prototype.includes`. -/
def containsSeq (needle : List Char) : List Char → Bool
  | [] => needle.isEmpty
  | c :: rest => seqAt needle (c :: rest) || containsSeq needle rest

/-- Modelled: `String.prototype.startsWith`. -/
def startsWithSeq (s needle : List Char) : Bool := seqAt needle s

/-- Modelled: `String.prototype.indexOf` with a one-character search string;
`none` stands for the JavaScript result -1. -/
def jsIndexOfChar (sep : Char) : List Char → Option Nat
  | [] => none
  | c :: rest => if c = sep then some 0 else (jsIndexOfChar sep rest).map (· + 1)

/-- Modelled: `String.prototype.split` with separator `"\r\n"`.
JavaScript returns `[""]` on the empty string, which the base case mirrors. -/
def splitCRLF : List Char → List (List Char)
  | [] => [[]]
  | [c] => [[c]]
  | a :: b :: rest =>
    if a = chCR ∧ b = chLF then [] :: splitCRLF rest
    else
      match splitCRLF (b :: rest) with
      | l :: ls => (a :: l) :: ls
      | [] => [[a]]

/-- Modelled: `String.prototype.split` with a one-character separator. -/
def splitOnChar (sep : Char) : List Char → List (List Char)
  | [] => [[]]
  | c :: rest =>
    if c = sep then [] :: splitOnChar sep rest
    else
      match splitOnChar sep rest with
      | l :: ls => (c :: l) :: ls
      | [] => [[c]]

/-- Modelled: `Array.prototype.join` with separator `", "`. -/
def joinCommaSpace : List (List Char) → List Char
  | [] => []
  | [v] => v
  | v :: rest => v ++ ( ", ").toList ++ joinCommaSpace rest

/-- Unicode replacement character U+FFFD, produced by a non-fatal
`TextDecoder` on malformed input. -/
def replacementChar : Char := Char.ofNat 0xFFFD

/-- Modelled: `TextEncoder.encode` on one character (standard UTF-8). -/
def utf8EncodeChar (c : Char) : List Nat :=
  let n := c.toNat
  if n < 0x80 then [n]
  else if n < 0x800 then [0xC0 + n / 64, 0x80 + n % 64]
  else if n < 0x10000 then
    [0xE0 + n / 4096, 0x80 + n / 64 % 64, 0x80 + n % 64]
  else
    [0xF0 + n / 262144, 0x80 + n / 4096 % 64, 0x80 + n / 64 % 64,
     0x80 + n % 64]

/-- Modelled: `TextEncoder.encode`. -/
def utf8Encode (s : List Char) : List Nat := (s.map utf8EncodeChar).flatten

/-- Is the byte a UTF-8 continuation byte? -/
def isCont (b : Nat) : Bool := 0x80 ≤ b && b < 0xC0

/-- One decoding step of a non-fatal UTF-8 decoder: given a lead byte and
the bytes after it, the character produced and how many of the following
bytes the step consumes. -/
def utf8Step (b : Nat) (rest : List Nat) : Char × Nat :=
  if b < 0x80 then (Char.ofNat b, 0)
  else if b < 0xC2 then (replacementChar, 0)
  else if b < 0xE0 then
    match rest with
    | b2 :: _ =>
      if isCont b2 then (Char.ofNat ((b - 0xC0) * 64 + (b2 - 0x80)), 1)
      else (replacementChar, 0)
    | [] => (replacementChar, 0)
  else if b < 0xF0 then
    match rest with
    | b2 :: b3 :: _ =>
      if isCont b2 && isCont b3 then
        let cp := (b - 0xE0) * 4096 + (b2 - 0x80) * 64 + (b3 - 0x80)
        ((if cp < 0x800 || (0xD800 ≤ cp && cp < 0xE000) then replacementChar
          else Char.ofNat cp), 2)
      else (replacementChar, 0)
    | _ => (replacementChar, rest.length)
  else if b < 0xF5 then
    match rest with
    | b2 :: b3 :: b4 :: _ =>
      if isCont b2 && isCont b3 && isCont b4 then
        let cp := (b - 0xF0) * 262144 + (b2 - 0x80) * 4096 +
          (b3 - 0x80) * 64 + (b4 - 0x80)
        ((if cp < 0x10000 || 0x110000 ≤ cp then replacementChar
          else Char.ofNat cp), 3)
      else (replacementChar, 0)
    | _ => (replacementChar, rest.length)
  else (replacementChar, 0)

/-- Recursion core of `utf8Decode`; the fuel argument only serves structural
termination and is always instantiated with the list length, which each
step strictly decreases below. -/
def utf8DecodeGo : Nat → List Nat → List Char
  | 0, _ => []
  | _, [] => []
  | fuel + 1, b :: rest =>
    let s := utf8Step b rest
    s.1 :: utf8DecodeGo fuel (rest.drop s.2)

/-- Modelled: `TextDecoder("utf-8", fatal: false).decode`. Exact on ASCII and
on well-formed UTF-8; the replacement-character resynchronisation on
malformed input approximates the WHATWG algorithm (the parser only decodes
ASCII in every property proved below). -/
def utf8Decode (l : List Nat) : List Char := utf8DecodeGo l.length l

/-- Value of a character as a digit in the given radix (as in `parseInt`). -/
def digitValue (radix : Nat) (c : Char) : Option Nat :=
  let n := c.toNat
  let v : Option Nat :=
    if 48 ≤ n && n ≤ 57 then some (n - 48)
    else if 65 ≤ n && n ≤ 90 then some (n - 55)
    else if 97 ≤ n && n ≤ 122 then some (n - 87)
    else none
  match v with
  | some d => if d < radix then some d else none
  | none => none

/-- Scan the longest digit prefix, returning accumulated value, digit count
and the unconsumed remainder. -/
def scanDigits (radix : Nat) : List Char → Nat → Nat → Nat × Nat × List Char
  | [], acc, cnt => (acc, cnt, [])
  | c :: rest, acc, cnt =>
    match digitValue radix c with
    | some d => scanDigits radix rest (acc * radix + d) (cnt + 1)
    | none => (acc, cnt, c :: rest)

/-- Modelled: `parseInt(s, radix)` for the radices 10 and 16 used by the
sources; `none` stands for NaN. Exact-value model (the IEEE-754 rounding of
huge literals is not modelled; every value the parser compares against its
configured caps is far below 2^53, where the model is exact). -/
def jsParseInt (s : List Char) (radix : Nat) : Option Int :=
  let s1 := s.dropWhile isJsWhitespace
  let signAndRest : Bool × List Char :=
    match s1 with
    | c :: rest =>
      if c = chMinus then (true, rest)
      else if c = chPlus then (false, rest) else (false, s1)
    | [] => (false, [])
  let s3 : List Char :=
    if radix = 16 then
      match signAndRest.2 with
      | z :: x :: rest =>
        if z = chZero ∧ (x = chXlow ∨ x = chXup) then rest else signAndRest.2
      | _ => signAndRest.2
    else signAndRest.2
  let r := scanDigits radix s3 0 0
  if r.2.1 = 0 then none
  else some (if signAndRest.1 then -(r.1 : Int) else (r.1 : Int))

/-- Result of the ECMAScript `Number` conversion: NaN, an infinity, or the
finite value `(-1)^neg * mant * 10^exp10`. -/
inductive JsNum
  | nan
  | inf (neg : Bool)
  | fin (neg : Bool) (mant : Nat) (exp10 : Int)
deriving DecidableEq, Repr

/-- Optional sign followed by at least one decimal digit (exponent part). -/
def parseSignedDigits (t : List Char) : Option (Int × List Char) :=
  let signAndRest : Bool × List Char :=
    match t with
    | c :: rest =>
      if c = chMinus then (true, rest)
      else if c = chPlus then (false, rest) else (false, t)
    | [] => (false, [])
  let r := scanDigits 10 signAndRest.2 0 0
  if r.2.1 = 0 then none
  else some ((if signAndRest.1 then -(r.1 : Int) else (r.1 : Int)), r.2.2)

/-- The StrDecimalLiteral part of the `Number` grammar, after an optional
sign has been consumed: `Infinity`, or digits with optional fraction and
optional exponent; anything else (including trailing junk) is NaN. -/
def jsDecimal (neg : Bool) (t : List Char) : JsNum :=
  if t = ( "Infinity").toList then JsNum.inf neg
  else
    let ipr := scanDigits 10 t 0 0
    let afterInt := ipr.2.2
    let dotSplit : Bool × List Char :=
      match afterInt with
      | c :: rest => if c = chDot then (true, rest) else (false, afterInt)
      | [] => (false, afterInt)
    let fpr := if dotSplit.1 then scanDigits 10 dotSplit.2 0 0 else (0, 0, afterInt)
    if ipr.2.1 = 0 ∧ fpr.2.1 = 0 then JsNum.nan
    else
      let mant := ipr.1 * 10 ^ fpr.2.1 + fpr.1
      match fpr.2.2 with
      | [] => JsNum.fin neg mant (0 - (fpr.2.1 : Int))
      | c :: rest =>
        if c = chElow ∨ c = chEup then
          match parseSignedDigits rest with
          | some (e, r3) =>
            if r3 = [] then JsNum.fin neg mant (e - (fpr.2.1 : Int))
            else JsNum.nan
          | none => JsNum.nan
        else JsNum.nan

/-- A `0x`/`0o`/`0b` integer literal body: all of `t` must be digits of the
radix. -/
def jsRadixLiteral (radix : Nat) (t : List Char) : JsNum :=
  let r := scanDigits radix t 0 0
  if r.2.1 = 0 ∨ r.2.2 ≠ [] then JsNum.nan else JsNum.fin false r.1 0

/-- Modelled: the ECMAScript `Number(string)` conversion (ToNumber applied to
a string), as an exact-value model of the StringNumericLiteral grammar.
IEEE-754 binary64 rounding is not modelled: the model agrees with JavaScript
on every string whose mathematical value is exactly representable, which
covers all inputs used below. -/
def jsToNumber (s : List Char) : JsNum :=
  let t := jsTrim s
  match t with
  | [] => JsNum.fin false 0 0
  | c :: rest =>
    if c = chPlus then jsDecimal false rest
    else if c = chMinus then jsDecimal true rest
    else
      match t with
      | z :: x :: rest2 =>
        if z = chZero ∧ (x = chXlow ∨ x = chXup) then jsRadixLiteral 16 rest2
        else if z = chZero ∧ (x = chOlow ∨ x = chOup) then jsRadixLiteral 8 rest2
        else if z = chZero ∧ (x = chBlow ∨ x = chBup) then jsRadixLiteral 2 rest2
        else jsDecimal false t
      | _ => jsDecimal false t

/-- Modelled: `Number.isInteger`. -/
def JsNum.isInteger : JsNum → Bool
  | .fin _ mant e => if 0 ≤ e then true else mant % 10 ^ (-e).toNat == 0
  | _ => false

/-- Is the JavaScript number strictly below zero? (`-0 < 0` is false.) -/
def JsNum.ltZero : JsNum → Bool
  | .fin neg m _ => neg && m ≠ 0
  | .inf neg => neg
  | .nan => false

/-- The integer value of a finite integral `JsNum` (0 on the other cases,
which the sources never reach thanks to the `isInteger` guard). -/
def JsNum.toInt : JsNum → Int
  | .fin neg m e =>
    let a : Nat := if 0 ≤ e then m * 10 ^ e.toNat else m / 10 ^ (-e).toNat
    if neg then -(a : Int) else (a : Int)
  | _ => 0

/-- Embeds `parseContentLength` (src/src/errors.ts): trim, reject the empty
string, convert with `Number`, reject non-integers and negatives. -/
def parseContentLength (value : List Char) : Option Int :=
  let v := jsTrim value
  if v = [] then none
  else
    let length := jsToNumber v
    if !length.isInteger || length.ltZero then none
    else some length.toInt

/-- Embeds `parseChunkSize` (src/src/errors.ts); `maxSize` is passed
explicitly (the source defaults it to 10 MiB). -/
def parseChunkSize (hex : List Char) (maxSize : Nat) : Option Int :=
  let h := jsTrim hex
  if h = [] then none
  else
    match jsParseInt h 16 with
    | none => none
    | some size =>
      if size < 0 then none
      else if size > (maxSize : Int) then none
      else some size

/-- The RFC 7230 separator characters listed in `errors.ts` (braces included). -/
def separatorChars : List Char :=
  ( "()<>@,;:\\\"/[]?=\x7b\x7d \t").toList

/-- The nine standard method names accepted without re-scanning. -/
def standardMethods : List (List Char) :=
  [( "GET").toList, ( "HEAD").toList, ( "POST").toList, ( "PUT").toList,
   ( "DELETE").toList, ( "CONNECT").toList, ( "OPTIONS").toList,
   ( "TRACE").toList, ( "PATCH").toList]

/-- Embeds `isValidMethod` (src/src/errors.ts). -/
def isValidMethod (method : List Char) : Bool :=
  if method ∈ standardMethods then true
  else if method.length = 0 || method.length > 100 then false
  else method.all fun c =>
    !(c.toNat ≤ 31 || c.toNat = 127) && !(c ∈ separatorChars)

/-- Embeds `isValidVersion` (src/src/errors.ts). -/
def isValidVersion (version : List Char) : Bool :=
  version = ( "HTTP/1.0").toList || version = ( "HTTP/1.1").toList

/-- Embeds `isValidStatusCode` (src/src/errors.ts). -/
def isValidStatusCode (statusCode : Int) : Bool :=
  100 ≤ statusCode && statusCode ≤ 999

/-- Embeds `isValidHeaderName` (src/src/errors.ts). -/
def isValidHeaderName (name : List Char) (allowUnderscore : Bool) : Bool :=
  if name.length = 0 || name.length > 256 then false
  else name.all fun c =>
    !(c.toNat ≤ 31 || c.toNat = 127) &&
    !(!allowUnderscore && c.toNat = 95) &&
    !(c ∈ separatorChars)

/-- Embeds `isValidHeaderValue` (src/src/errors.ts). -/
def isValidHeaderValue (value : List Char) : Bool :=
  if value.length > 8192 then false
  else value.all fun c =>
    c.toNat = 9 || c.toNat = 10 || c.toNat = 12 || c.toNat = 13 ||
    (32 ≤ c.toNat && c.toNat ≤ 126)

/-- Embeds `isValidTarget` (src/src/errors.ts). -/
def isValidTarget (target : List Char) : Bool :=
  if target.length = 0 || target.length > 8192 then false
  else if target.headD chSpace = chSlash then true
  else if containsSeq ( "://").toList target then true
  else if target = [chStar] then true
  else if !containsSeq [chSlash] target && containsSeq [chColon] target then true
  else false

/-! ## Header container (src/headers.ts) -/

/-- A header field: original-case name and value. -/
structure Header where
  name : List Char
  value : List Char
deriving DecidableEq, Repr

/-- Lookup in an insertion-ordered association list (the model of a
JavaScript `Map`; `Map.get` returns the value of the matching key). -/
def alistLookup {α β : Type} [DecidableEq α] (k : α) : List (α × β) → Option β
  | [] => none
  | p :: rest => if p.1 = k then some p.2 else alistLookup k rest

/-- In-place update of the value under the first matching key (the model of
mutating the array stored under a `Map` key). -/
def alistUpdate {α β : Type} [DecidableEq α] (k : α) (f : β → β) :
    List (α × β) → List (α × β)
  | [] => []
  | p :: rest =>
    if p.1 = k then (p.1, f p.2) :: rest else p :: alistUpdate k f rest

/-- Embeds the `HeadersMap` class (src/headers.ts). The source keys each
entry of the `headers` map by a fabricated unique string
(`name::Date.now()::random`); those opaque unique keys are modelled by a
fresh counter `nextKey`. Both maps are insertion-ordered, as JavaScript
`Map`s are. -/
structure HeadersMap where
  nextKey : Nat
  headers : List (Nat × Header)
  lowerCaseMap : List (List Char × List Nat)
deriving DecidableEq, Repr

namespace HeadersMap

/-- A freshly constructed empty `HeadersMap`. -/
def empty : HeadersMap := ⟨0, [], []⟩

/-- Embeds `HeadersMap.append`: store the entry under a fresh unique key and
record the key under the lowercase name. -/
def append (H : HeadersMap) (name value : List Char) : HeadersMap :=
  let lowerName := jsToLower name
  let key := H.nextKey
  let headers := H.headers ++ [(key, ⟨name, value⟩)]
  let lcm :=
    match alistLookup lowerName H.lowerCaseMap with
    | none => H.lowerCaseMap ++ [(lowerName, [key])]
    | some _ => alistUpdate lowerName (fun ks => ks ++ [key]) H.lowerCaseMap
  ⟨key + 1, headers, lcm⟩

/-- Embeds the `HeadersMap` constructor on an initial entry list (it appends
each entry in order). -/
def ofEntries (l : List Header) : HeadersMap :=
  l.foldl (fun H h => H.append h.name h.value) empty

/-- Embeds `HeadersMap.get`: comma-joined values under the lowercase name;
`none` stands for `undefined`. -/
def get (H : HeadersMap) (name : List Char) : Option (List Char) :=
  let lowerName := jsToLower name
  match alistLookup lowerName H.lowerCaseMap with
  | none => none
  | some originalNames =>
    match originalNames with
    | [] => none
    | [k] =>
      match alistLookup k H.headers with
      | some h => some h.value
      | none => none
    | ks =>
      some (joinCommaSpace (ks.map fun k =>
        match alistLookup k H.headers with
        | some h => h.value
        | none => []))

/-- Embeds `HeadersMap.has`. -/
def has (H : HeadersMap) (name : List Char) : Bool :=
  (alistLookup (jsToLower name) H.lowerCaseMap).isSome

/-- Embeds `HeadersMap.getAll`. -/
def getAll (H : HeadersMap) (name : List Char) : List (List Char) :=
  match alistLookup (jsToLower name) H.lowerCaseMap with
  | none => []
  | some originalNames =>
    originalNames.map fun k =>
      match alistLookup k H.headers with
      | some h => h.value
      | none => []

/-- Collect distinct names in order of first occurrence (`Array.includes`
then `push`). -/
def namesAux : List (Nat × Header) → List (List Char) → List (List Char)
  | [], acc => acc
  | p :: rest, acc =>
    if p.2.name ∈ acc then namesAux rest acc
    else namesAux rest (acc ++ [p.2.name])

/-- Embeds `HeadersMap.names`: the distinct original-case names in insertion
order of first occurrence. -/
def names (H : HeadersMap) : List (List Char) := namesAux H.headers []

/-- Embeds the `HeadersMap` iterator / `entries()`: the `(name, value)`
pairs in insertion order. -/
def entriesList (H : HeadersMap) : List (List Char × List Char) :=
  H.headers.map fun p => (p.2.name, p.2.value)

/-- Embeds the `size` getter: number of distinct lowercase names. -/
def size (H : HeadersMap) : Nat := H.lowerCaseMap.length

/-- Embeds the `totalEntries` getter: number of entries with duplicates. -/
def totalEntries (H : HeadersMap) : Nat := H.headers.length

/-- Embeds `HeadersMap.toBytes`: each entry as `Name: Value\r\n` in insertion
order, then a final empty line, UTF-8 encoded. -/
def toBytes (H : HeadersMap) : List Nat :=
  utf8Encode
    (((H.headers.map fun p =>
        p.2.name ++ ( ": ").toList ++ p.2.value ++ [chCR, chLF]).flatten) ++
      [chCR, chLF])

/-- Embeds `HeadersMap.equals`: same total entry count, and every entry's
value occurs among the other container's values for that name. -/
def equals (H other : HeadersMap) : Bool :=
  if H.totalEntries ≠ other.totalEntries then false
  else H.headers.all fun p =>
    (other.getAll p.2.name).any fun v => v = p.2.value

end HeadersMap

/-- Embeds `parseHeaderLine` (src/headers.ts): split at the first colon, trim
name and value, reject a missing colon, an empty name or an empty value. -/
def parseHeaderLine (line : List Char) : Option (List Char × List Char) :=
  match jsIndexOfChar chColon line with
  | none => none
  | some colonIndex =>
    let name := jsTrim (line.take colonIndex)
    let value := jsTrim (line.drop (colonIndex + 1))
    if name = [] then none
    else if value = [] then none
    else some (name, value)

/-- The `for (const line of lines)` loop of `parseHeaders`, with its early
break on an empty line and its failure cases. -/
def parseHeadersLoop (maxHeaders maxLineLength : Nat) :
    List (List Char) → HeadersMap → Option HeadersMap
  | [], headers => some headers
  | line :: rest, headers =>
    if line.length > maxLineLength then none
    else if line = [] then some headers
    else if headers.totalEntries ≥ maxHeaders then none
    else
      match parseHeaderLine line with
      | none => none
      | some nv =>
        parseHeadersLoop maxHeaders maxLineLength rest
          (headers.append nv.1 nv.2)

/-- Embeds `parseHeaders` (src/headers.ts); the source defaults `maxHeaders`
to 256 and `maxLineLength` to 8192, here they are passed explicitly. -/
def parseHeaders (headerText : List Char) (maxHeaders maxLineLength : Nat) :
    Option HeadersMap :=
  parseHeadersLoop maxHeaders maxLineLength (splitCRLF headerText)
    HeadersMap.empty

/-! ## Start-line tokenizers (src/request.ts, src/response.ts) -/

/-- Read a byte of a `Uint8Array`; the guarded loops below never read out of
range, so the default is irrelevant. -/
def byteAt (data : List Nat) (i : Nat) : Nat := data.getD i 0

/-- The `data.slice(a, b)` of a `Uint8Array`. -/
def sliceBytes (data : List Nat) (a b : Nat) : List Nat :=
  (data.drop a).take (b - a)

/-- Decode the byte range `[a, b)` as UTF-8, as the sources' `decodeUtf8` of
a slice does. -/
def decodeSlice (data : List Nat) (a b : Nat) : List Char :=
  utf8Decode (sliceBytes data a b)

/-- Recursion core of `findCRLF` (fuel is `stop - i`, kept structural so
concrete runs reduce inside the kernel). -/
def findCRLFGo (data : List Nat) (stop : Nat) : Nat → Nat → Option Nat
  | 0, _ => none
  | fuel + 1, i =>
    if i + 1 < stop then
      if byteAt data i = 13 ∧ byteAt data (i + 1) = 10 then some i
      else findCRLFGo data stop fuel (i + 1)
    else none

/-- The scan `for (i = start; i < stop - 1; i++)` for the first CRLF pair. -/
def findCRLF (data : List Nat) (i stop : Nat) : Option Nat :=
  findCRLFGo data stop (stop - i) i

/-- Recursion core of `findSpace`. -/
def findSpaceGo (data : List Nat) (stop : Nat) : Nat → Nat → Option Nat
  | 0, _ => none
  | fuel + 1, i =>
    if i < stop then
      if byteAt data i = 32 then some i else findSpaceGo data stop fuel (i + 1)
    else none

/-- The scan `for (i = start; i < stop; i++)` for the first space byte. -/
def findSpace (data : List Nat) (i stop : Nat) : Option Nat :=
  findSpaceGo data stop (stop - i) i

/-- Recursion core of `findDoubleCRLF`. -/
def findDoubleCRLFGo (data : List Nat) (stop : Nat) : Nat → Nat → Option Nat
  | 0, _ => none
  | fuel + 1, i =>
    if i + 4 ≤ stop then
      if byteAt data i = 13 ∧ byteAt data (i + 1) = 10 ∧
          byteAt data (i + 2) = 13 ∧ byteAt data (i + 3) = 10 then some i
      else findDoubleCRLFGo data stop fuel (i + 1)
    else none

/-- The scan `for (i = start; i <= stop - 4; i++)` for the first double CRLF
(the JavaScript bound `i <= stop - 4` is `i + 4 <= stop` without the
underflow of truncated subtraction). -/
def findDoubleCRLF (data : List Nat) (i stop : Nat) : Option Nat :=
  findDoubleCRLFGo data stop (stop - i) i

/-- Parsed request-line components. -/
structure RequestLine where
  method : List Char
  target : List Char
  version : List Char
deriving DecidableEq, Repr

/-- Result record of `parseRequestLine`; `error = none` stands for the
source's `error: null`. -/
structure RequestLineResult where
  requestLine : Option RequestLine
  bytesConsumed : Nat
  needsMoreData : Bool
  error : Option (List Char)
deriving DecidableEq, Repr

/-- Embeds `parseRequestLine` (src/request.ts) over the byte range
`[start, endPos)` (the parameter the source calls `end`). -/
def parseRequestLine (data : List Nat) (start endPos : Nat) :
    RequestLineResult :=
  let crlfPos := findCRLF data start endPos
  let hasCrlf := crlfPos.isSome
  let lineEnd := match crlfPos with | some p => p | none => endPos
  match findSpace data start lineEnd with
  | none => ⟨none, 0, true, none⟩
  | some firstSpace =>
    let secondSpace := findSpace data (firstSpace + 1) lineEnd
    if secondSpace.isNone && !hasCrlf then
      -- The source additionally peeks at the would-be version text here,
      -- but every path of this branch returns needs-more-data, consumed 0.
      ⟨none, 0, true, none⟩
    else
      let ss := match secondSpace with | some s => s | none => lineEnd
      let method := decodeSlice data start firstSpace
      if !isValidMethod method then
        ⟨none, 0, false, some ( "Invalid HTTP method").toList⟩
      else
        let target := decodeSlice data (firstSpace + 1) ss
        if !isValidTarget target then
          ⟨none, 0, false, some ( "Invalid request target").toList⟩
        else
          let version := decodeSlice data (ss + 1) lineEnd
          if !isValidVersion version then
            ⟨none, 0, false, some ( "Invalid HTTP version").toList⟩
          else
            let bytesConsumed :=
              match crlfPos with
              | some p => p + 2
              | none => endPos - start
            ⟨some ⟨method, target, version⟩, bytesConsumed, false, none⟩

/-- Parsed status-line components. -/
structure StatusLine where
  version : List Char
  statusCode : Int
  statusText : List Char
deriving DecidableEq, Repr

/-- Result record of `parseStatusLine`. -/
structure StatusLineResult where
  statusLine : Option StatusLine
  bytesConsumed : Nat
  needsMoreData : Bool
  error : Option (List Char)
deriving DecidableEq, Repr

/-- Embeds `parseStatusLine` (src/response.ts) over `[start, endPos)`. -/
def parseStatusLine (data : List Nat) (start endPos : Nat) :
    StatusLineResult :=
  let crlfPos := findCRLF data start endPos
  let hasCrlf := crlfPos.isSome
  let lineEnd := match crlfPos with | some p => p | none => endPos
  match findSpace data start lineEnd with
  | none => ⟨none, 0, true, none⟩
  | some firstSpace =>
    let secondSpace := findSpace data (firstSpace + 1) lineEnd
    if secondSpace.isNone && !hasCrlf then
      -- The source additionally checks whether the status-code digits are
      -- already complete, but both arms of that check return
      -- needs-more-data with nothing consumed.
      ⟨none, 0, true, none⟩
    else
      let ss := match secondSpace with | some s => s | none => lineEnd
      let version := decodeSlice data start firstSpace
      if !isValidVersion version then
        ⟨none, 0, false, some ( "Invalid HTTP version").toList⟩
      else
        let statusCodeStr := decodeSlice data (firstSpace + 1) ss
        match jsParseInt statusCodeStr 10 with
        | none =>
          -- `parseInt` gave NaN; `isValidStatusCode(NaN)` is false
          ⟨none, 0, false, some ( "Invalid status code").toList⟩
        | some statusCode =>
          if !isValidStatusCode statusCode then
            ⟨none, 0, false, some ( "Invalid status code").toList⟩
          else
            let reasonPhrase := decodeSlice data (ss + 1) lineEnd
            let bytesConsumed :=
              match crlfPos with
              | some p => p + 2
              | none => endPos - start
            ⟨some ⟨version, statusCode, reasonPhrase⟩, bytesConsumed,
              false, none⟩

/-! ## Streaming parser (src/parser.ts) -/

/-- The `MessageType` enum. -/
inductive MessageType
  | REQUEST
  | RESPONSE
deriving DecidableEq, Repr

/-- The `TransferEncoding` enum. -/
inductive TransferEncoding
  | CONTENT_LENGTH
  | CHUNKED
  | IDENTITY
  | GZIP
  | DEFLATE
  | BR
  | CLOSE
  | UNKNOWN
deriving DecidableEq, Repr

/-- The `ParserState` enum. -/
inductive ParserState
  | IDLE
  | REQUEST_LINE
  | STATUS_LINE
  | HEADERS
  | BODY_CONTENT_LENGTH
  | BODY_CHUNKED
  | BODY_CHUNKED_SIZE
  | BODY_CHUNKED_DATA
  | BODY_CHUNKED_TRAILER
  | COMPLETE
  | ERROR
deriving DecidableEq, Repr

/-- The `ParserErrorCode` enum. -/
inductive ParserErrorCode
  | INVALID_METHOD
  | INVALID_VERSION
  | INVALID_TARGET
  | INVALID_STATUS_CODE
  | INVALID_HEADER
  | HEADER_NAME_TOO_LONG
  | HEADER_VALUE_TOO_LONG
  | TOO_MANY_HEADERS
  | INVALID_CONTENT_LENGTH
  | BODY_TOO_LARGE
  | INVALID_CHUNK_SIZE
  | INCOMPLETE_CHUNK
  | INVALID_CHUNK_TRAILER
  | TIMEOUT
  | CONNECTION_CLOSED
  | UNKNOWN
deriving DecidableEq, Repr

/-- Embeds `createError` / the `ParserError` record (the human-readable
message text and the free-form `details` payload are not modelled; no claim
mentions them). -/
structure ParserError where
  code : ParserErrorCode
  state : ParserState
  position : Option Nat
deriving DecidableEq, Repr

/-- The `ParserOptions` record with every field present, as after the
constructor merges the caller's options into `DEFAULT_OPTIONS`. -/
structure ParserOptions where
  allowUnderscoreInHeaders : Bool
  enablePipelining : Bool
  inactivityTimeout : Nat
  maxBodySize : Nat
  maxChunks : Nat
  maxHeaderLineLength : Nat
  maxHeaders : Nat
  validateHeaderNames : Bool
  validateHeaderValues : Bool
deriving DecidableEq, Repr

/-- The `DEFAULT_OPTIONS` constant. -/
def DEFAULT_OPTIONS : ParserOptions :=
  ⟨true, false, 30000, 10 * 1024 * 1024, 10000, 8192, 256, true, true⟩

/-- An emitted message. The source's `HttpRequest` carries `requestLine` and
`HttpResponse` carries `statusLine` (each filled with a non-null assertion
from the parser's field); here one record carries both as options. -/
structure HttpMessage where
  type : MessageType
  requestLine : Option RequestLine
  statusLine : Option StatusLine
  headers : HeadersMap
  body : List Nat
  complete : Bool
  keepAlive : Bool
  transferEncoding : TransferEncoding
  contentLength : Option Nat
deriving DecidableEq, Repr

/-- The mutable fields of the `HttpParser` class. -/
structure HttpParser where
  options : ParserOptions
  state : ParserState
  buffer : List Nat
  bufferOffset : Nat
  messageType : Option MessageType
  requestLine : Option RequestLine
  statusLine : Option StatusLine
  headers : Option HeadersMap
  body : Option (List Nat)
  bodyLength : Nat
  chunkSize : Nat
  chunkBytesRead : Nat
  totalChunks : Nat
  keepAlive : Bool
deriving DecidableEq, Repr

/-- The result record each per-state handler returns to the dispatch loop. -/
structure StepResult where
  message : Option HttpMessage
  error : Option ParserError
  complete : Bool
  needsMoreData : Bool
deriving DecidableEq, Repr

/-- A handler result with neither message nor error. -/
def stepPlain (complete needsMoreData : Bool) : StepResult :=
  ⟨none, none, complete, needsMoreData⟩

/-- A handler result reporting an error. -/
def stepError (e : ParserError) : StepResult := ⟨none, some e, false, false⟩

namespace HttpParser

/-- Embeds the `HttpParser` constructor with the given merged options. -/
def mk' (options : ParserOptions) : HttpParser :=
  ⟨options, ParserState.IDLE, [], 0, none, none, none, none, none,
    0, 0, 0, 0, true⟩

/-- Embeds `reset(clearBuffer)`. -/
def reset (p : HttpParser) (clearBuffer : Bool) : HttpParser :=
  { p with
    state := ParserState.IDLE
    buffer := if clearBuffer then [] else p.buffer
    bufferOffset := if clearBuffer then 0 else p.bufferOffset
    messageType := none
    requestLine := none
    statusLine := none
    headers := none
    body := none
    bodyLength := 0
    chunkSize := 0
    chunkBytesRead := 0
    totalChunks := 0
    keepAlive := true }

/-- Embeds `getBufferedBytes`. -/
def getBufferedBytes (p : HttpParser) : Nat :=
  p.buffer.length - p.bufferOffset

/-- Embeds `appendBuffer`: compact away the consumed prefix, then append. -/
def appendBuffer (p : HttpParser) (data : List Nat) : HttpParser :=
  let p :=
    if p.bufferOffset > 0 then
      { p with buffer := p.buffer.drop p.bufferOffset, bufferOffset := 0 }
    else p
  { p with buffer := p.buffer ++ data }

/-- Embeds `compactBuffer`. -/
def compactBuffer (p : HttpParser) : HttpParser :=
  if p.bufferOffset > 0 then
    { p with buffer := p.buffer.drop p.bufferOffset, bufferOffset := 0 }
  else p

/-- Embeds `appendToBody`: grow the body and fall into the `ERROR` state
when it exceeds `maxBodySize`. -/
def appendToBody (p : HttpParser) (data : List Nat) : HttpParser :=
  let newBody :=
    match p.body with
    | none => data
    | some b => b ++ data
  let p := { p with body := some newBody }
  if newBody.length > p.options.maxBodySize then
    { p with state := ParserState.ERROR }
  else p

/-- Embeds `createCompleteMessage`. -/
def createCompleteMessage (p : HttpParser) : HttpParser × StepResult :=
  if p.messageType = some MessageType.REQUEST then
    let request : HttpMessage :=
      { type := MessageType.REQUEST
        requestLine := p.requestLine
        statusLine := none
        headers := p.headers.getD HeadersMap.empty
        body := p.body.getD []
        complete := true
        keepAlive := p.keepAlive
        transferEncoding := TransferEncoding.CONTENT_LENGTH
        contentLength := p.body.map List.length }
    (p, ⟨some request, none, true, false⟩)
  else
    let response : HttpMessage :=
      { type := MessageType.RESPONSE
        requestLine := none
        statusLine := p.statusLine
        headers := p.headers.getD HeadersMap.empty
        body := p.body.getD []
        complete := true
        keepAlive := p.keepAlive
        transferEncoding := TransferEncoding.CONTENT_LENGTH
        contentLength := p.body.map List.length }
    (p, ⟨some response, none, true, false⟩)

/-- The truthiness test JavaScript applies to a `string | undefined` header
value (`undefined` and the empty string are falsy). -/
def truthy : Option (List Char) → Bool
  | none => false
  | some v => !v.isEmpty

/-- Embeds `handleHeadersComplete`: keep-alive decision, then the body
framing decision. The source performs two sequential assignments to
`this.keepAlive` (the `Connection` check, then the HTTP/1.0-response
override); none of the fields those conditions read is written in between,
so they are composed here into one value before the single record update. -/
def handleHeadersComplete (p : HttpParser) (headers : HeadersMap) :
    HttpParser × StepResult :=
  let connection := headers.get ( "connection").toList
  let keepAlive1 :=
    if truthy connection then
      decide (jsToLower (connection.getD []) ≠ ( "close").toList)
    else p.keepAlive
  let keepAlive2 :=
    if p.messageType = some MessageType.RESPONSE ∧
        (p.statusLine.map StatusLine.version) = some (( "HTTP/1.0").toList)
    then false
    else keepAlive1
  let p := { p with headers := some headers, keepAlive := keepAlive2 }
  let transferEncoding := headers.get ( "transfer-encoding").toList
  let contentLength := headers.get ( "content-length").toList
  if truthy transferEncoding ∧
      containsSeq ( "chunked").toList (jsToLower (transferEncoding.getD [])) then
    ({ p with state := ParserState.BODY_CHUNKED_SIZE }, stepPlain false false)
  else if truthy contentLength then
    match parseContentLength (contentLength.getD []) with
    | some length =>
      let p := { p with bodyLength := length.toNat }
      if length = 0 then createCompleteMessage p
      else ({ p with state := ParserState.BODY_CONTENT_LENGTH },
        stepPlain false false)
    | none => createCompleteMessage p
  else createCompleteMessage p

/-- Embeds `parseMessageStart`: dispatch on the first four buffered bytes. -/
def parseMessageStart (p : HttpParser) : HttpParser × StepResult :=
  if p.buffer.length - p.bufferOffset < 4 then (p, stepPlain false true)
  else if byteAt p.buffer p.bufferOffset = 0x48 ∧
      byteAt p.buffer (p.bufferOffset + 1) = 0x54 ∧
      byteAt p.buffer (p.bufferOffset + 2) = 0x54 ∧
      byteAt p.buffer (p.bufferOffset + 3) = 0x50 then
    ({ p with
        messageType := some MessageType.RESPONSE
        state := ParserState.STATUS_LINE }, stepPlain false false)
  else
    ({ p with
        messageType := some MessageType.REQUEST
        state := ParserState.REQUEST_LINE }, stepPlain false false)

/-- Embeds the `parseRequestLine` method (the class method wrapping the
tokenizer of src/request.ts). -/
def parseRequestLineStep (p : HttpParser) : HttpParser × StepResult :=
  let result := parseRequestLine p.buffer p.bufferOffset p.buffer.length
  if result.needsMoreData then (p, stepPlain false true)
  else if result.error.isSome then
    (p, stepError ⟨ParserErrorCode.INVALID_METHOD, ParserState.REQUEST_LINE,
      some p.bufferOffset⟩)
  else
    match result.requestLine with
    | some rl =>
      ({ p with
          requestLine := some rl
          bufferOffset := p.bufferOffset + result.bytesConsumed
          state := ParserState.HEADERS }, stepPlain false false)
    | none =>
      -- unreachable; the source applies the non-null assertion `result.requestLine!`
      (p, stepError ⟨ParserErrorCode.UNKNOWN, ParserState.REQUEST_LINE, none⟩)

/-- Embeds the `parseStatusLine` method. -/
def parseStatusLineStep (p : HttpParser) : HttpParser × StepResult :=
  let result := parseStatusLine p.buffer p.bufferOffset p.buffer.length
  if result.needsMoreData then (p, stepPlain false true)
  else if result.error.isSome then
    (p, stepError ⟨ParserErrorCode.INVALID_VERSION, ParserState.STATUS_LINE,
      some p.bufferOffset⟩)
  else
    match result.statusLine with
    | some sl =>
      ({ p with
          statusLine := some sl
          bufferOffset := p.bufferOffset + result.bytesConsumed
          state := ParserState.HEADERS }, stepPlain false false)
    | none =>
      -- unreachable; the source applies the non-null assertion `result.statusLine!`
      (p, stepError ⟨ParserErrorCode.UNKNOWN, ParserState.STATUS_LINE, none⟩)

/-- The header validation loop of the `parseHeaders` method: first offending
entry, if any (name checked before value, as in the source). -/
def findHeaderValidationError (opts : ParserOptions) :
    List (List Char × List Char) → Bool
  | [] => false
  | nv :: rest =>
    if opts.validateHeaderNames ∧
        !isValidHeaderName nv.1 opts.allowUnderscoreInHeaders then true
    else if opts.validateHeaderValues ∧ !isValidHeaderValue nv.2 then true
    else findHeaderValidationError opts rest

/-- Embeds the `parseHeaders` method of the class: find the block
terminator, decode, delegate to the header-block parser, validate, then
hand over to `handleHeadersComplete`. -/
def parseHeadersStep (p : HttpParser) : HttpParser × StepResult :=
  let bufferLength := p.buffer.length
  match findDoubleCRLF p.buffer p.bufferOffset bufferLength with
  | none =>
    let lineCheck :=
      match findCRLF p.buffer p.bufferOffset bufferLength with
      | some _ =>
        if bufferLength - p.bufferOffset > p.options.maxHeaderLineLength then
          some (stepError ⟨ParserErrorCode.HEADER_VALUE_TOO_LONG,
            ParserState.HEADERS, some p.bufferOffset⟩)
        else none
      | none => none
    match lineCheck with
    | some err => (p, err)
    | none =>
      let remaining := bufferLength - p.bufferOffset
      if remaining = 2 ∧ byteAt p.buffer p.bufferOffset = 13 ∧
          byteAt p.buffer (p.bufferOffset + 1) = 10 then
        handleHeadersComplete { p with bufferOffset := bufferLength }
          HeadersMap.empty
      else (p, stepPlain false true)
  | some headerEnd =>
    let headerText := decodeSlice p.buffer p.bufferOffset headerEnd
    match parseHeaders headerText p.options.maxHeaders
        p.options.maxHeaderLineLength with
    | none =>
      (p, stepError ⟨ParserErrorCode.INVALID_HEADER, ParserState.HEADERS,
        some p.bufferOffset⟩)
    | some parsedHeaders =>
      if (p.options.validateHeaderNames ∨ p.options.validateHeaderValues) ∧
          findHeaderValidationError p.options parsedHeaders.entriesList then
        (p, stepError ⟨ParserErrorCode.INVALID_HEADER, ParserState.HEADERS,
          some p.bufferOffset⟩)
      else
        handleHeadersComplete
          { p with
            headers := some parsedHeaders
            bufferOffset := headerEnd + 4 }
          parsedHeaders

/-- Embeds `parseBodyContentLength`. -/
def parseBodyContentLength (p : HttpParser) : HttpParser × StepResult :=
  let remaining := p.buffer.length - p.bufferOffset
  if remaining < p.bodyLength then
    let p := p.appendToBody (p.buffer.drop p.bufferOffset)
    let p := { p with bufferOffset := p.buffer.length }
    (p, stepPlain false true)
  else
    let bodyData := sliceBytes p.buffer p.bufferOffset
      (p.bufferOffset + p.bodyLength)
    let p := p.appendToBody bodyData
    let p := { p with bufferOffset := p.bufferOffset + p.bodyLength }
    createCompleteMessage p

/-- Embeds `parseChunkedSize`. -/
def parseChunkedSize (p : HttpParser) : HttpParser × StepResult :=
  match findCRLF p.buffer p.bufferOffset p.buffer.length with
  | none => (p, stepPlain false true)
  | some lineEnd =>
    let chunkSizeLine := decodeSlice p.buffer p.bufferOffset lineEnd
    let sizeStr := jsTrim ((splitOnChar chSemicolon chunkSizeLine).headD [])
    match parseChunkSize sizeStr p.options.maxBodySize with
    | none =>
      (p, stepError ⟨ParserErrorCode.INVALID_CHUNK_SIZE,
        ParserState.BODY_CHUNKED_SIZE, some p.bufferOffset⟩)
    | some size =>
      let p := { p with
        chunkSize := size.toNat
        chunkBytesRead := 0
        bufferOffset := lineEnd + 2 }
      if size = 0 then
        ({ p with state := ParserState.BODY_CHUNKED_TRAILER },
          stepPlain false false)
      else
        let p := { p with totalChunks := p.totalChunks + 1 }
        if p.totalChunks > p.options.maxChunks then
          (p, stepError ⟨ParserErrorCode.BODY_TOO_LARGE,
            ParserState.BODY_CHUNKED_DATA, some p.bufferOffset⟩)
        else
          ({ p with state := ParserState.BODY_CHUNKED_DATA },
            stepPlain false false)

/-- Embeds `parseChunkedData`. -/
def parseChunkedData (p : HttpParser) : HttpParser × StepResult :=
  let remaining := p.buffer.length - p.bufferOffset
  let toRead := p.chunkSize - p.chunkBytesRead
  if remaining < toRead + 2 then
    if remaining ≥ toRead then
      let p := p.appendToBody
        (sliceBytes p.buffer p.bufferOffset (p.bufferOffset + toRead))
      let p := { p with
        chunkBytesRead := p.chunkBytesRead + toRead
        bufferOffset := p.bufferOffset + toRead }
      (p, stepPlain false true)
    else
      let p := p.appendToBody (p.buffer.drop p.bufferOffset)
      let p := { p with bufferOffset := p.buffer.length }
      (p, stepPlain false true)
  else
    let chunkData := sliceBytes p.buffer p.bufferOffset
      (p.bufferOffset + toRead)
    let p := p.appendToBody chunkData
    let p := { p with bufferOffset := p.bufferOffset + toRead }
    let p :=
      if byteAt p.buffer p.bufferOffset = 13 ∧
          byteAt p.buffer (p.bufferOffset + 1) = 10 then
        { p with bufferOffset := p.bufferOffset + 2 }
      else p
    ({ p with state := ParserState.BODY_CHUNKED_SIZE }, stepPlain false false)

/-- Embeds `parseChunkedTrailer`, including the source's fallback that
treats a buffer whose final two bytes are CRLF as the end of the trailer. -/
def parseChunkedTrailer (p : HttpParser) : HttpParser × StepResult :=
  let bufferLength := p.buffer.length
  match findDoubleCRLF p.buffer p.bufferOffset bufferLength with
  | some i => createCompleteMessage { p with bufferOffset := i + 4 }
  | none =>
    if bufferLength ≥ 2 ∧ byteAt p.buffer (bufferLength - 2) = 13 ∧
        byteAt p.buffer (bufferLength - 1) = 10 then
      createCompleteMessage { p with bufferOffset := bufferLength }
    else (p, stepPlain false true)

/-- Embeds `parseNext`: dispatch on the current state. -/
def parseNext (p : HttpParser) : HttpParser × StepResult :=
  match p.state with
  | ParserState.IDLE => p.parseMessageStart
  | ParserState.REQUEST_LINE => p.parseRequestLineStep
  | ParserState.STATUS_LINE => p.parseStatusLineStep
  | ParserState.HEADERS => p.parseHeadersStep
  | ParserState.BODY_CONTENT_LENGTH => p.parseBodyContentLength
  | ParserState.BODY_CHUNKED_SIZE => p.parseChunkedSize
  | ParserState.BODY_CHUNKED_DATA => p.parseChunkedData
  | ParserState.BODY_CHUNKED_TRAILER => p.parseChunkedTrailer
  | ParserState.COMPLETE => (p, stepPlain true false)
  | _ => (p, stepError ⟨ParserErrorCode.UNKNOWN, p.state, none⟩)

/-- The `while (this.state !== ParserState.ERROR)` dispatch loop of `parse`.
The loop of the source terminates because every iteration that neither
breaks nor emits advances the state machine or consumes buffered bytes;
here that is expressed with a fuel argument that `parse` instantiates
generously, and the `ERROR` guard is checked before the fuel so that the
loop's entry condition is exact. -/
def parseLoop (fuel : Nat) (p : HttpParser) (msgs : List HttpMessage) :
    HttpParser × List HttpMessage :=
  if p.state = ParserState.ERROR then (p, msgs)
  else
    match fuel with
    | 0 => (p, msgs)
    | Nat.succ fuel =>
      let pr := p.parseNext
      let p1 := pr.1
      let r := pr.2
      if r.error.isSome then ({ p1 with state := ParserState.ERROR }, msgs)
      else
        let step :=
          if r.complete then
            ((p1.compactBuffer).reset false,
              msgs ++ (match r.message with | some m => [m] | none => []))
          else (p1, msgs)
        if r.needsMoreData then step
        else parseLoop fuel step.1 step.2

/-- Embeds `parse(data)`: append to the buffer, then run the dispatch loop.
The fuel bound is sufficient: each message the loop emits consumes at least
four buffered bytes, and between consuming steps the state advances through
at most a dozen handlers. -/
def parse (p : HttpParser) (data : List Nat) :
    HttpParser × List HttpMessage :=
  let p := p.appendBuffer data
  parseLoop (12 * p.buffer.length + 24) p []

end HttpParser

/-- UTF-8 bytes of a Lean string literal: the bytes a test would feed the
parser via `TextEncoder.encode`. -/
def strBytes (s : String) : List Nat := utf8Encode s.toList

/-- A freshly constructed parser with the default options
(`new HttpParser()`). -/
def freshParser : HttpParser := HttpParser.mk' DEFAULT_OPTIONS

/-- Feed a list of fragments to a parser with successive `parse` calls,
collecting all emitted messages in order. -/
def parseFragments (p : HttpParser) (frags : List (List Nat)) :
    HttpParser × List HttpMessage :=
  frags.foldl
    (fun acc frag =>
      let r := acc.1.parse frag
      (r.1, acc.2 ++ r.2))
    (p, [])

/-! ## Definitions used by the claim statements -/

/-- The value of a string of decimal digits (most significant first). -/
def decimalValue (s : List Char) : Nat :=
  s.foldl (fun a c => a * 10 + (c.toNat - 48)) 0

/-- Well-formedness of a `HeadersMap` as the class maintains it: every
recorded unique key is below the fresh-key counter, and the lowercase index
holds non-empty key lists that all resolve in the entry map. Every container
reachable through the constructor and `append` satisfies it. -/
def HeadersMapInv (H : HeadersMap) : Prop :=
  (∀ q ∈ H.headers, q.1 < H.nextKey) ∧
  (∀ q ∈ H.lowerCaseMap, q.2 ≠ [] ∧
    ∀ k ∈ q.2, ∃ h, alistLookup k H.headers = some h)

/-- A header entry whose wire serialisation survives the
`toBytes`/`parseHeaders` round trip untouched: non-empty visible-ASCII
colon-free name, non-empty trim-stable ASCII value, and a line within the
default line-length limit. -/
def goodHeader (h : Header) : Prop :=
  h.name ≠ [] ∧ (∀ c ∈ h.name, 33 ≤ c.toNat ∧ c.toNat ≤ 126 ∧ c ≠ chColon) ∧
  h.value ≠ [] ∧ (∀ c ∈ h.value, 32 ≤ c.toNat ∧ c.toNat ≤ 126) ∧
  jsTrim h.value = h.value ∧
  h.name.length + 2 + h.value.length ≤ 8192

/-- The serialised header line of one entry (without its CRLF). -/
def headerLineOf (h : Header) : List Char :=
  h.name ++ ( ": ").toList ++ h.value

/-- C1: a complete GET request delivered in one piece. -/
def c1OneShot : HttpParser × List HttpMessage :=
  freshParser.parse (strBytes "GET / HTTP/1.1\r\nHost: example.com\r\n\r\n")

/-- C1: the same bytes split right after the CRLF-less request line. -/
def c1Fragmented : HttpParser × List HttpMessage :=
  parseFragments freshParser
    [strBytes "GET / HTTP/1.1", strBytes "\r\nHost: example.com\r\n\r\n"]

/-- C2: a parser configured with `maxBodySize := 5`. -/
def c2Parser : HttpParser :=
  HttpParser.mk' { DEFAULT_OPTIONS with maxBodySize := 5 }

/-- C2: a request whose Content-Length body exceeds the configured cap by
one byte, delivered whole. -/
def c2Run : HttpParser × List HttpMessage :=
  c2Parser.parse (strBytes "POST / HTTP/1.1\r\nContent-Length: 6\r\n\r\nabcdef")

/-- C3: an arbitrary concrete parser stuck in the `ERROR` state (reached for
instance after an invalid method). -/
def c3ErrorParser : HttpParser :=
  (freshParser.parse
    (strBytes "INVALID METHOD / HTTP/1.1\r\nHost: example.com\r\n\r\n")).1

/-- C6: an HTTP/1.0 request without a Connection header. -/
def c6Run : HttpParser × List HttpMessage :=
  freshParser.parse (strBytes "GET / HTTP/1.0\r\n\r\n")

/-- C7: one complete pipelined request. -/
def c7FirstMessage : List Nat := strBytes "GET /1 HTTP/1.1\r\nHost: a\r\n\r\n"

/-- C7: the next pipelined request, of which only a prefix is delivered. -/
def c7SecondMessage : List Nat := strBytes "GET /2 HTTP/1.1\r\nHost: b\r\n\r\n"

/-- C7: a single `parse` call on one complete message plus the first `n`
bytes of the next. -/
def c7Run (n : Nat) : HttpParser × List HttpMessage :=
  freshParser.parse (c7FirstMessage ++ c7SecondMessage.take n)

/-- C8: a container holding two entries under the identical name
`Set-Cookie`. -/
def c8Dup : HeadersMap :=
  HeadersMap.ofEntries
    [⟨( "Set-Cookie").toList, ( "a").toList⟩,
     ⟨( "Set-Cookie").toList, ( "b").toList⟩]

/-- C9: a container whose single value carries a leading space, which the
round trip through `toBytes`/`parseHeaders` trims away. -/
def c9LeadingSpace : HeadersMap :=
  HeadersMap.ofEntries [⟨( "A").toList, ( " x").toList⟩]

/-- C10: a bodiless request. -/
def c10Run : HttpParser × List HttpMessage :=
  freshParser.parse (strBytes "GET / HTTP/1.1\r\n\r\n")

/-! ## General lemmas about the parser surface -/

theorem parseLoop_of_error (fuel : Nat) (p : HttpParser)
    (msgs : List HttpMessage) (h : p.state = ParserState.ERROR) :
    HttpParser.parseLoop fuel p msgs = (p, msgs) := by
  unfold HttpParser.parseLoop
  simp [h]

theorem appendBuffer_state (p : HttpParser) (data : List Nat) :
    (p.appendBuffer data).state = p.state := by
  unfold HttpParser.appendBuffer
  split <;> rfl

theorem appendBuffer_bufferedBytes (p : HttpParser) (data : List Nat) :
    (p.appendBuffer data).getBufferedBytes =
      p.getBufferedBytes + data.length := by
  unfold HttpParser.appendBuffer HttpParser.getBufferedBytes
  split
  · simp
  · next hoff =>
    simp at hoff
    simp [hoff]

/-! ## Claim C1 -/

/-- C1: feeding `GET / HTTP/1.1\r\nHost: example.com\r\n\r\n` whole emits one
request carrying the Host header, while feeding the same bytes as the two
fragments `GET / HTTP/1.1` and `\r\nHost: example.com\r\n\r\n` emits one
request with an empty header block: the request-line tokenizer consumed the
CRLF-less first fragment, so the header parser later mistook the leading
CRLF of the second fragment for the end of the header block. The emitted
message lists differ, refuting the claimed fragmentation invariance. -/
theorem C1_fragmentation_divergence :
    (c1OneShot.2.map fun m => m.headers.names) = [[( "Host").toList]] ∧
    (c1Fragmented.2.map fun m => m.headers.names) = [[]] ∧
    ¬ c1OneShot.2 = c1Fragmented.2 := by decide

/-! ## Claim C2 -/

/-- C2: with `maxBodySize := 5`, parsing a request whose Content-Length body
is 6 bytes and arrives in one call emits the oversized message anyway and
leaves the parser in `IDLE`, not `ERROR`: `appendToBody` sets the `ERROR`
state, but `parseBodyContentLength` still returns the completed message and
the per-message reset wipes the state back to `IDLE`. -/
theorem C2_oversized_body_emitted :
    c2Parser.options.maxBodySize = 5 ∧
    (c2Run.2.map fun m => m.body.length) = [6] ∧
    c2Run.1.state = ParserState.IDLE ∧
    ¬ c2Run.1.state = ParserState.ERROR := by decide

/-! ## Claim C3 -/

/-- C3: once the parser is in the `ERROR` state, any further `parse` call
emits no messages, consumes nothing (the buffered-byte count only grows by
the newly appended bytes), and stays in `ERROR`; a `reset` returns the state
to `IDLE`. -/
theorem C3_error_is_terminal_until_reset (p : HttpParser) (data : List Nat)
    (h : p.state = ParserState.ERROR) :
    (p.parse data).2 = [] ∧
    (p.parse data).1.state = ParserState.ERROR ∧
    (p.parse data).1.getBufferedBytes = p.getBufferedBytes + data.length ∧
    ((p.parse data).1.reset true).state = ParserState.IDLE := by
  have hstate : (p.appendBuffer data).state = ParserState.ERROR :=
    (appendBuffer_state p data).trans h
  have hloop := parseLoop_of_error
    (12 * (p.appendBuffer data).buffer.length + 24) (p.appendBuffer data)
    [] hstate
  unfold HttpParser.parse
  rw [hloop]
  exact ⟨rfl, hstate, appendBuffer_bufferedBytes p data, rfl⟩

/-- C3, witness: a parser concretely driven into `ERROR` by an invalid
method stays in `ERROR` on the next `parse` call. -/
theorem C3_witness :
    c3ErrorParser.state = ParserState.ERROR ∧
    (c3ErrorParser.parse (strBytes "GET")).2 = [] ∧
    (c3ErrorParser.parse (strBytes "GET")).1.state = ParserState.ERROR ∧
    (c3ErrorParser.parse (strBytes "GET")).1.getBufferedBytes =
      c3ErrorParser.getBufferedBytes + (strBytes "GET").length ∧
    ((c3ErrorParser.parse (strBytes "GET")).1.reset true).state =
      ParserState.IDLE := by
  have h : c3ErrorParser.state = ParserState.ERROR := by decide
  have := C3_error_is_terminal_until_reset c3ErrorParser (strBytes "GET") h
  exact ⟨h, this.1, this.2.1, this.2.2.1, this.2.2.2⟩

/-! ## Claim C4 -/

/-- C4: at the end of the header block, a Transfer-Encoding header whose
lowercased value contains `chunked` selects chunked framing (whatever any
Content-Length header says); otherwise a Content-Length header that parses
to `n ≠ 0` selects content-length framing of `n` bytes, a parsed length of 0
emits the message immediately with an empty body, and the absence of any
framing header also emits immediately with an empty body. (`truthy` is the
JavaScript truthiness test the source applies to the header lookups.) -/
theorem C4_framing_decision (p : HttpParser) (H : HeadersMap)
    (hbody : p.body = none) :
    (HttpParser.truthy (H.get (( "transfer-encoding").toList)) = true ∧
      containsSeq (( "chunked").toList)
        (jsToLower ((H.get (( "transfer-encoding").toList)).getD [])) = true →
      (p.handleHeadersComplete H).1.state = ParserState.BODY_CHUNKED_SIZE ∧
      (p.handleHeadersComplete H).2.complete = false) ∧
    (¬ (HttpParser.truthy (H.get (( "transfer-encoding").toList)) = true ∧
        containsSeq (( "chunked").toList)
          (jsToLower ((H.get (( "transfer-encoding").toList)).getD [])) = true) →
      ∀ n : Int,
        HttpParser.truthy (H.get (( "content-length").toList)) = true →
        parseContentLength ((H.get (( "content-length").toList)).getD []) =
          some n →
        ¬ n = 0 →
        (p.handleHeadersComplete H).1.state =
          ParserState.BODY_CONTENT_LENGTH ∧
        (p.handleHeadersComplete H).1.bodyLength = n.toNat ∧
        (p.handleHeadersComplete H).2.complete = false) ∧
    (¬ (HttpParser.truthy (H.get (( "transfer-encoding").toList)) = true ∧
        containsSeq (( "chunked").toList)
          (jsToLower ((H.get (( "transfer-encoding").toList)).getD [])) = true) →
      HttpParser.truthy (H.get (( "content-length").toList)) = true →
      parseContentLength ((H.get (( "content-length").toList)).getD []) =
        some 0 →
      (p.handleHeadersComplete H).2.complete = true ∧
      ((p.handleHeadersComplete H).2.message.map HttpMessage.body) =
        some []) ∧
    (¬ (HttpParser.truthy (H.get (( "transfer-encoding").toList)) = true ∧
        containsSeq (( "chunked").toList)
          (jsToLower ((H.get (( "transfer-encoding").toList)).getD [])) = true) →
      HttpParser.truthy (H.get (( "content-length").toList)) = false →
      (p.handleHeadersComplete H).2.complete = true ∧
      ((p.handleHeadersComplete H).2.message.map HttpMessage.body) =
        some []) := by
  refine ⟨?_, ?_, ?_, ?_⟩
  · rintro ⟨h1, h2⟩
    unfold HttpParser.handleHeadersComplete
    rw [if_pos ⟨h1, h2⟩]
    exact ⟨rfl, rfl⟩
  · rintro hnot n hcl hparse hne
    unfold HttpParser.handleHeadersComplete
    rw [if_neg hnot, if_pos hcl, hparse]
    dsimp only
    rw [if_neg hne]
    exact ⟨rfl, rfl, rfl⟩
  · rintro hnot hcl hparse
    unfold HttpParser.handleHeadersComplete
    rw [if_neg hnot, if_pos hcl, hparse]
    dsimp only
    rw [if_pos rfl]
    unfold HttpParser.createCompleteMessage
    dsimp only
    split <;> simp [hbody]
  · rintro hnot hclf
    unfold HttpParser.handleHeadersComplete
    rw [if_neg hnot, if_neg (by rw [hclf]; simp)]
    unfold HttpParser.createCompleteMessage
    dsimp only
    split <;> simp [hbody]

/-- C4, witness: a header block with `Transfer-Encoding: chunked` and
`Content-Length: 3` selects chunked framing; one with `Content-Length: 3`
alone frames 3 bytes; one with `Content-Length: 0` and an empty block emit
immediately with empty bodies. -/
theorem C4_witness :
    ((freshParser.handleHeadersComplete (HeadersMap.ofEntries
        [⟨( "Transfer-Encoding").toList, ( "chunked").toList⟩,
         ⟨( "Content-Length").toList, ( "3").toList⟩])).1.state =
      ParserState.BODY_CHUNKED_SIZE) ∧
    ((freshParser.handleHeadersComplete (HeadersMap.ofEntries
        [⟨( "Content-Length").toList, ( "3").toList⟩])).1.state =
      ParserState.BODY_CONTENT_LENGTH) ∧
    ((freshParser.handleHeadersComplete (HeadersMap.ofEntries
        [⟨( "Content-Length").toList, ( "3").toList⟩])).1.bodyLength = 3) ∧
    ((freshParser.handleHeadersComplete (HeadersMap.ofEntries
        [⟨( "Content-Length").toList, ( "0").toList⟩])).2.message.map
      HttpMessage.body = some []) ∧
    ((freshParser.handleHeadersComplete HeadersMap.empty).2.message.map
      HttpMessage.body = some []) := by
  refine ⟨?_, ?_, ?_, ?_, ?_⟩
  · exact ((C4_framing_decision freshParser _ rfl).1 (by decide)).1
  · exact (((C4_framing_decision freshParser _ rfl).2.1 (by decide) 3
      (by decide) (by decide) (by decide))).1
  · exact (((C4_framing_decision freshParser _ rfl).2.1 (by decide) 3
      (by decide) (by decide) (by decide))).2.1
  · exact ((C4_framing_decision freshParser _ rfl).2.2.1 (by decide)
      (by decide) (by decide)).2
  · exact ((C4_framing_decision freshParser _ rfl).2.2.2 (by decide)
      (by decide)).2

/-! ## Claim C5 -/

theorem dropWhile_eq_self_of (p : Char → Bool) (l : List Char)
    (h : ∀ c ∈ l, p c = false) : l.dropWhile p = l := by
  cases l with
  | nil => rfl
  | cons a t => simp [List.dropWhile_cons, h a (by simp)]

theorem jsTrim_eq_self_of (l : List Char)
    (h : ∀ c ∈ l, isJsWhitespace c = false) : jsTrim l = l := by
  unfold jsTrim
  rw [dropWhile_eq_self_of _ _ h,
    dropWhile_eq_self_of _ _ (fun c hc => h c (by simpa using hc)),
    List.reverse_reverse]

theorem digitValue_ten (c : Char) (h : 48 ≤ c.toNat ∧ c.toNat ≤ 57) :
    digitValue 10 c = some (c.toNat - 48) := by
  unfold digitValue
  have h1 : (48 ≤ c.toNat && c.toNat ≤ 57) = true := by
    simp
    omega
  simp only [h1, if_true]
  have h2 : c.toNat - 48 < 10 := by omega
  simp [h2]

theorem scanDigits_all_digits (l : List Char)
    (h : ∀ c ∈ l, 48 ≤ c.toNat ∧ c.toNat ≤ 57) :
    ∀ acc cnt : Nat, scanDigits 10 l acc cnt =
      (l.foldl (fun a c => a * 10 + (c.toNat - 48)) acc,
        cnt + l.length, []) := by
  induction l with
  | nil => intro acc cnt; simp [scanDigits]
  | cons a t ih =>
    intro acc cnt
    have ha := h a (by simp)
    rw [scanDigits, digitValue_ten a ha]
    dsimp only
    rw [ih (fun c hc => h c (by simp [hc]))]
    simp
    omega

theorem jsDecimal_all_digits (l : List Char) (hne : l ≠ [])
    (h : ∀ c ∈ l, 48 ≤ c.toNat ∧ c.toNat ≤ 57) :
    jsDecimal false l = JsNum.fin false (decimalValue l) 0 := by
  have hInf : ¬ l = ( "Infinity").toList := by
    intro heq
    have hI : (Char.ofNat 73) ∈ l := by rw [heq]; decide
    have h73 := h _ hI
    have : (Char.ofNat 73).toNat = 73 := by decide
    omega
  unfold jsDecimal
  rw [if_neg hInf, scanDigits_all_digits l h 0 0]
  simp [decimalValue, List.length_eq_zero, hne]

theorem jsToNumber_all_digits (l : List Char) (hne : l ≠ [])
    (h : ∀ c ∈ l, 48 ≤ c.toNat ∧ c.toNat ≤ 57) :
    jsToNumber l = JsNum.fin false (decimalValue l) 0 := by
  have htrim : jsTrim l = l := by
    apply jsTrim_eq_self_of
    intro c hc
    have := h c hc
    unfold isJsWhitespace
    simp
    omega
  unfold jsToNumber
  rw [htrim]
  rcases l with _ | ⟨c, rest⟩
  · exact absurd rfl hne
  · have hc := h c (by simp)
    have hplus : ¬ c = chPlus := by
      intro heq
      rw [heq] at hc
      have : chPlus.toNat = 43 := by decide
      omega
    have hminus : ¬ c = chMinus := by
      intro heq
      rw [heq] at hc
      have : chMinus.toNat = 45 := by decide
      omega
    dsimp only
    rw [if_neg hplus, if_neg hminus]
    rcases rest with _ | ⟨x, rest2⟩
    · exact jsDecimal_all_digits [c] hne h
    · have hx := h x (by simp)
      have hradix : ∀ ch : Char, 97 ≤ ch.toNat → ¬ x = ch := by
        intro ch hch heq
        rw [heq] at hx
        omega
      have hradixUp : ∀ ch : Char, ch.toNat ≤ 47 ∨ (66 ≤ ch.toNat ∧ ch.toNat ≤ 88) → ¬ x = ch := by
        intro ch hch heq
        rw [heq] at hx
        omega
      have h16 : ¬ (c = chZero ∧ (x = chXlow ∨ x = chXup)) := by
        rintro ⟨-, hx2 | hx2⟩
        · exact hradix chXlow (by decide) hx2
        · exact hradixUp chXup (by decide) hx2
      have h8 : ¬ (c = chZero ∧ (x = chOlow ∨ x = chOup)) := by
        rintro ⟨-, hx2 | hx2⟩
        · exact hradix chOlow (by decide) hx2
        · exact hradixUp chOup (by decide) hx2
      have h2 : ¬ (c = chZero ∧ (x = chBlow ∨ x = chBup)) := by
        rintro ⟨-, hx2 | hx2⟩
        · exact hradix chBlow (by decide) hx2
        · exact hradixUp chBup (by decide) hx2
      dsimp only
      rw [if_neg h16, if_neg h8, if_neg h2]
      exact jsDecimal_all_digits (c :: x :: rest2) hne h

/-- C5 amended: `parseContentLength` follows JavaScript `Number()`
semantics: every non-empty trimmed string of plain decimal digits is
accepted with its decimal value, but a leading `+`, hexadecimal notation
and exponent notation are also accepted when they denote a non-negative
integer; interior whitespace, plain words and negative values are rejected
with a null result. -/
theorem C5_amended_number_semantics :
    (∀ s : List Char, s ≠ [] → (∀ c ∈ s, 48 ≤ c.toNat ∧ c.toNat ≤ 57) →
      parseContentLength s = some ((decimalValue s : Nat) : Int)) ∧
    parseContentLength ( "+5").toList = some 5 ∧
    parseContentLength ( "0x1A").toList = some 26 ∧
    parseContentLength ( "1e2").toList = some 100 ∧
    parseContentLength ( "1 2").toList = none ∧
    parseContentLength ( "abc").toList = none ∧
    parseContentLength ( "-5").toList = none := by
  refine ⟨?_, by decide, by decide, by decide, by decide, by decide,
    by decide⟩
  intro s hne h
  have htrim : jsTrim s = s := by
    apply jsTrim_eq_self_of
    intro c hc
    have := h c hc
    unfold isJsWhitespace
    simp
    omega
  unfold parseContentLength
  rw [htrim, if_neg hne, jsToNumber_all_digits s hne h]
  simp [JsNum.isInteger, JsNum.ltZero, JsNum.toInt]

/-- C5 amended, witness at the digit string `42`. -/
theorem C5_amended_witness :
    parseContentLength ( "42").toList =
      some ((decimalValue (( "42").toList) : Nat) : Int) :=
  C5_amended_number_semantics.1 (( "42").toList) (by decide) (by decide)

/-- C5 counterexample: `parseContentLength` delegates to JavaScript
`Number()`, which accepts a leading `+`, hexadecimal and exponent notation,
so the values the claim says are rejected with `null` all parse. -/
theorem C5_counterexample :
    parseContentLength ( "+5").toList = some 5 ∧
    parseContentLength ( "0x1A").toList = some 26 ∧
    parseContentLength ( "1e2").toList = some 100 := by decide

/-! ## Claim C6 -/

/-- C6 counterexample: an HTTP/1.0 request without a Connection header is
emitted with `keepAlive = true` — the HTTP/1.0 default-off rule in
`handleHeadersComplete` only fires for responses. -/
theorem C6_counterexample :
    (c6Run.2.map fun m => m.keepAlive) = [true] ∧
    (c6Run.2.map fun m => m.requestLine.map RequestLine.version) =
      [some (( "HTTP/1.0").toList)] := by decide

theorem handleHeadersComplete_keepAlive (p : HttpParser) (H : HeadersMap) :
    (p.handleHeadersComplete H).1.keepAlive =
      (if p.messageType = some MessageType.RESPONSE ∧
          (p.statusLine.map StatusLine.version) = some (( "HTTP/1.0").toList)
       then false
       else if HttpParser.truthy (H.get (( "connection").toList)) = true
       then decide (jsToLower ((H.get (( "connection").toList)).getD []) ≠
         ( "close").toList)
       else p.keepAlive) := by
  unfold HttpParser.handleHeadersComplete HttpParser.createCompleteMessage
  dsimp only
  split
  · rfl
  · split
    · split
      · split
        · split <;> rfl
        · rfl
      · split <;> rfl
    · split <;> rfl

theorem handleHeadersComplete_message_keepAlive (p : HttpParser)
    (H : HeadersMap) (m : HttpMessage)
    (h : (p.handleHeadersComplete H).2.message = some m) :
    m.keepAlive = (p.handleHeadersComplete H).1.keepAlive := by
  unfold HttpParser.handleHeadersComplete HttpParser.createCompleteMessage
    at h ⊢
  dsimp only at h ⊢
  split at h <;> revert h
  · intro h; exact absurd h (by simp [stepPlain])
  · split
    · split
      · split
        · split <;> (intro h; rw [← Option.some.inj h])
        · intro h; exact absurd h (by simp [stepPlain])
      · split <;> (intro h; rw [← Option.some.inj h])
    · split <;> (intro h; rw [← Option.some.inj h])

/-- C6 amended: the keep-alive flag defaults to true, is overridden to
false exactly when the lowercased Connection value is not absent/empty and
differs from `close` (in which case it is set accordingly), and is forced to
false for responses whose status-line version is HTTP/1.0 — but HTTP/1.0
requests keep the default true: the HTTP/1.0 rule applies to responses
only. Every message emitted at header completion carries that flag. -/
theorem C6_amended_keepalive_decision (p : HttpParser) (H : HeadersMap)
    (hka : p.keepAlive = true) :
    ((p.handleHeadersComplete H).1.keepAlive =
      (if p.messageType = some MessageType.RESPONSE ∧
          (p.statusLine.map StatusLine.version) = some (( "HTTP/1.0").toList)
       then false
       else if HttpParser.truthy (H.get (( "connection").toList)) = true
       then decide (jsToLower ((H.get (( "connection").toList)).getD []) ≠
         ( "close").toList)
       else true)) ∧
    ∀ m, (p.handleHeadersComplete H).2.message = some m →
      m.keepAlive = (p.handleHeadersComplete H).1.keepAlive := by
  constructor
  · rw [handleHeadersComplete_keepAlive, hka]
  · exact fun m h => handleHeadersComplete_message_keepAlive p H m h

/-- C6 amended, witness: a fresh parser completing a header block carrying
`Connection: close` ends with keep-alive false. -/
theorem C6_amended_witness :
    (freshParser.handleHeadersComplete (HeadersMap.ofEntries
      [⟨( "Connection").toList, ( "close").toList⟩])).1.keepAlive =
      (if freshParser.messageType = some MessageType.RESPONSE ∧
          (freshParser.statusLine.map StatusLine.version) =
            some (( "HTTP/1.0").toList)
       then false
       else if HttpParser.truthy ((HeadersMap.ofEntries
          [⟨( "Connection").toList, ( "close").toList⟩]).get
            (( "connection").toList)) = true
       then decide (jsToLower (((HeadersMap.ofEntries
          [⟨( "Connection").toList, ( "close").toList⟩]).get
            (( "connection").toList)).getD []) ≠ ( "close").toList)
       else true) :=
  (C6_amended_keepalive_decision freshParser _ rfl).1

/-! ## Claim C7 -/

/-- C7 counterexample: after one complete request, the 15 trailing bytes
`GET /2 HTTP/1.1` of the next message form a CRLF-less start-line that the
request-line tokenizer consumes whole, so exactly one message is emitted but
`getBufferedBytes()` reports 0 instead of 15. -/
theorem C7_counterexample :
    (c7SecondMessage.take 15).length = 15 ∧
    (c7Run 15).2.length = 1 ∧
    (c7Run 15).1.getBufferedBytes = 0 := by decide

/-- C7 amended: for the pipelined request family, as long as the trailing
`n` bytes cannot yet be consumed by the start-line tokenizer (`n ≤ 14`, i.e.
before the CRLF-less start-line is complete), a single `parse` call emits
exactly one message and buffers exactly the `n` trailing bytes. -/
theorem C7_amended_partial_next_preserved :
    ∀ n : Nat, n < 15 →
      (c7Run n).2.length = 1 ∧ (c7Run n).1.getBufferedBytes = n := by decide

/-- C7 amended, witness at `n = 5`. -/
theorem C7_amended_witness :
    (c7Run 5).2.length = 1 ∧ (c7Run 5).1.getBufferedBytes = 5 :=
  C7_amended_partial_next_preserved 5 (by omega)

/-! ## Claim C8 -/

theorem alistLookup_append_some {α β : Type} [DecidableEq α] (k : α)
    (l1 l2 : List (α × β)) (v : β) (h : alistLookup k l1 = some v) :
    alistLookup k (l1 ++ l2) = some v := by
  induction l1 with
  | nil => simp [alistLookup] at h
  | cons q t ih =>
    rw [alistLookup] at h
    rw [List.cons_append, alistLookup]
    by_cases hq : q.1 = k
    · rw [if_pos hq] at h ⊢; exact h
    · rw [if_neg hq] at h ⊢; exact ih h

theorem alistLookup_append_none {α β : Type} [DecidableEq α] (k : α)
    (l1 l2 : List (α × β)) (h : alistLookup k l1 = none) :
    alistLookup k (l1 ++ l2) = alistLookup k l2 := by
  induction l1 with
  | nil => simp
  | cons q t ih =>
    rw [alistLookup] at h
    rw [List.cons_append, alistLookup]
    by_cases hq : q.1 = k
    · rw [if_pos hq] at h; exact absurd h (by simp)
    · rw [if_neg hq] at h ⊢; exact ih h

theorem alistLookup_eq_none {α β : Type} [DecidableEq α] (k : α)
    (l : List (α × β)) (h : ∀ q ∈ l, ¬ q.1 = k) : alistLookup k l = none := by
  induction l with
  | nil => rfl
  | cons q t ih =>
    rw [alistLookup, if_neg (h q (by simp))]
    exact ih fun q hq => h q (by simp [hq])

theorem alistLookup_mem {α β : Type} [DecidableEq α] (k : α)
    (l : List (α × β)) (v : β) (h : alistLookup k l = some v) :
    (k, v) ∈ l := by
  induction l with
  | nil => simp [alistLookup] at h
  | cons q t ih =>
    rw [alistLookup] at h
    by_cases hq : q.1 = k
    · rw [if_pos hq] at h
      have hv : q.2 = v := Option.some.inj h
      have hqe : q = (k, v) := by rw [← hq, ← hv]
      rw [← hqe]
      exact List.mem_cons_self q t
    · rw [if_neg hq] at h
      exact List.mem_cons_of_mem _ (ih h)

theorem alistUpdate_lookup_self {α β : Type} [DecidableEq α] (k : α)
    (f : β → β) (l : List (α × β)) (v : β) (h : alistLookup k l = some v) :
    alistLookup k (alistUpdate k f l) = some (f v) := by
  induction l with
  | nil => simp [alistLookup] at h
  | cons q t ih =>
    rw [alistLookup] at h
    rw [alistUpdate]
    by_cases hq : q.1 = k
    · rw [if_pos hq] at h
      rw [if_pos hq, alistLookup, if_pos hq, Option.some.inj h]
    · rw [if_neg hq] at h
      rw [if_neg hq, alistLookup, if_neg hq]
      exact ih h

theorem alistUpdate_lookup_ne {α β : Type} [DecidableEq α] (k k' : α)
    (f : β → β) (l : List (α × β)) (h : ¬ k' = k) :
    alistLookup k' (alistUpdate k f l) = alistLookup k' l := by
  induction l with
  | nil => rfl
  | cons q t ih =>
    rw [alistUpdate]
    by_cases hq : q.1 = k
    · rw [if_pos hq]
      have hne : ¬ q.1 = k' := fun hc => h (hc ▸ hq)
      rw [alistLookup, alistLookup, if_neg hne, if_neg hne]
    · rw [if_neg hq, alistLookup, alistLookup, ih]

theorem mem_alistUpdate {α β : Type} [DecidableEq α] (k : α) (f : β → β)
    (l : List (α × β)) (q' : α × β) (h : q' ∈ alistUpdate k f l) :
    q' ∈ l ∨ ∃ q ∈ l, q.1 = k ∧ q' = (k, f q.2) := by
  induction l with
  | nil => simp [alistUpdate] at h
  | cons q t ih =>
    rw [alistUpdate] at h
    by_cases hq : q.1 = k
    · rw [if_pos hq] at h
      rcases List.mem_cons.mp h with h1 | h1
      · right
        refine ⟨q, List.mem_cons_self q t, hq, ?_⟩
        rw [h1, hq]
      · left
        exact List.mem_cons_of_mem _ h1
    · rw [if_neg hq] at h
      rcases List.mem_cons.mp h with h1 | h1
      · left
        rw [h1]
        exact List.mem_cons_self q t
      · rcases ih h1 with h2 | ⟨q2, hq2, hk2, he2⟩
        · left
          exact List.mem_cons_of_mem _ h2
        · right
          exact ⟨q2, List.mem_cons_of_mem _ hq2, hk2, he2⟩

theorem append_nextKey (H : HeadersMap) (n v : List Char) :
    (H.append n v).nextKey = H.nextKey + 1 := rfl

theorem append_headers (H : HeadersMap) (n v : List Char) :
    (H.append n v).headers = H.headers ++ [(H.nextKey, ⟨n, v⟩)] := rfl

theorem append_lcm_none (H : HeadersMap) (n v : List Char)
    (h : alistLookup (jsToLower n) H.lowerCaseMap = none) :
    (H.append n v).lowerCaseMap =
      H.lowerCaseMap ++ [(jsToLower n, [H.nextKey])] := by
  unfold HeadersMap.append
  dsimp only
  rw [h]

theorem append_lcm_some (H : HeadersMap) (n v : List Char)
    (ks : List Nat) (h : alistLookup (jsToLower n) H.lowerCaseMap = some ks) :
    (H.append n v).lowerCaseMap =
      alistUpdate (jsToLower n) (fun l => l ++ [H.nextKey]) H.lowerCaseMap := by
  unfold HeadersMap.append
  dsimp only
  rw [h]

theorem inv_empty : HeadersMapInv HeadersMap.empty := by
  constructor
  · intro q hq
    simp [HeadersMap.empty] at hq
  · intro q hq
    simp [HeadersMap.empty] at hq

theorem inv_append (H : HeadersMap) (hInv : HeadersMapInv H)
    (n v : List Char) : HeadersMapInv (H.append n v) := by
  obtain ⟨hkeys, hlcm⟩ := hInv
  constructor
  · intro q hq
    rw [append_headers] at hq
    rw [append_nextKey]
    rcases List.mem_append.mp hq with h1 | h1
    · exact Nat.lt_succ_of_lt (hkeys q h1)
    · have : q = (H.nextKey, ⟨n, v⟩) := by simpa using h1
      rw [this]
      exact Nat.lt_succ_self _
  · intro q hq
    rw [append_headers]
    cases hmem : alistLookup (jsToLower n) H.lowerCaseMap with
    | none =>
      rw [append_lcm_none H n v hmem] at hq
      rcases List.mem_append.mp hq with h1 | h1
      · obtain ⟨hne, hres⟩ := hlcm q h1
        refine ⟨hne, fun k hk => ?_⟩
        obtain ⟨hdr, hh⟩ := hres k hk
        exact ⟨hdr, alistLookup_append_some _ _ _ _ hh⟩
      · have : q = (jsToLower n, [H.nextKey]) := by simpa using h1
        rw [this]
        refine ⟨by simp, fun k hk => ?_⟩
        have hkk : k = H.nextKey := by simpa using hk
        rw [hkk]
        refine ⟨⟨n, v⟩, ?_⟩
        rw [alistLookup_append_none _ _ _
          (alistLookup_eq_none _ _ fun q2 hq2 => Nat.ne_of_lt (hkeys q2 hq2))]
        simp [alistLookup]
    | some ks =>
      rw [append_lcm_some H n v ks hmem] at hq
      rcases mem_alistUpdate _ _ _ _ hq with h1 | ⟨q2, hq2, hk2, he2⟩
      · obtain ⟨hne, hres⟩ := hlcm q h1
        refine ⟨hne, fun k hk => ?_⟩
        obtain ⟨hdr, hh⟩ := hres k hk
        exact ⟨hdr, alistLookup_append_some _ _ _ _ hh⟩
      · obtain ⟨hne, hres⟩ := hlcm q2 hq2
        rw [he2]
        refine ⟨by simp, fun k hk => ?_⟩
        rcases List.mem_append.mp hk with h2 | h2
        · obtain ⟨hdr, hh⟩ := hres k h2
          exact ⟨hdr, alistLookup_append_some _ _ _ _ hh⟩
        · have hkk : k = H.nextKey := by simpa using h2
          rw [hkk]
          refine ⟨⟨n, v⟩, ?_⟩
          rw [alistLookup_append_none _ _ _
            (alistLookup_eq_none _ _ fun q3 hq3 => Nat.ne_of_lt (hkeys q3 hq3))]
          simp [alistLookup]

theorem getAll_append (H : HeadersMap) (hInv : HeadersMapInv H)
    (n v name : List Char) :
    (H.append n v).getAll name =
      H.getAll name ++ (if jsToLower n = jsToLower name then [v] else []) := by
  obtain ⟨hkeys, hlcm⟩ := hInv
  have hfresh : alistLookup H.nextKey H.headers = none :=
    alistLookup_eq_none _ _ fun q hq => Nat.ne_of_lt (hkeys q hq)
  have hnewlook : alistLookup H.nextKey (H.append n v).headers =
      some ⟨n, v⟩ := by
    rw [append_headers, alistLookup_append_none _ _ _ hfresh]
    simp [alistLookup]
  have holdlook : ∀ q ∈ H.lowerCaseMap, ∀ k ∈ q.2,
      alistLookup k (H.append n v).headers = alistLookup k H.headers := by
    intro q hq k hk
    obtain ⟨hdr, hh⟩ := (hlcm q hq).2 k hk
    rw [append_headers, alistLookup_append_some _ _ _ _ hh, hh]
  unfold HeadersMap.getAll
  by_cases hname : jsToLower n = jsToLower name
  · rw [if_pos hname, ← hname]
    cases hmem : alistLookup (jsToLower n) H.lowerCaseMap with
    | none =>
      rw [append_lcm_none H n v hmem, alistLookup_append_none _ _ _ hmem]
      have hbase : alistLookup (jsToLower n)
          [(jsToLower n, [H.nextKey])] = some [H.nextKey] := by
        simp [alistLookup]
      rw [hbase]
      simp [hnewlook]
    | some ks =>
      have hmemq := alistLookup_mem _ _ _ hmem
      rw [append_lcm_some H n v ks hmem,
        alistUpdate_lookup_self _ _ _ _ hmem]
      dsimp only
      rw [List.map_append]
      congr 1
      · exact List.map_congr_left fun k hk => by
          rw [holdlook _ hmemq k hk]
      · simp [hnewlook]
  · rw [if_neg hname, List.append_nil]
    have hne2 : ¬ jsToLower name = jsToLower n := fun hc => hname hc.symm
    cases hq : alistLookup (jsToLower name) H.lowerCaseMap with
    | none =>
      cases hmem : alistLookup (jsToLower n) H.lowerCaseMap with
      | none =>
        rw [append_lcm_none H n v hmem, alistLookup_append_none _ _ _ hq]
        have hbase : alistLookup (jsToLower name)
            [(jsToLower n, [H.nextKey])] = none := by
          simp [alistLookup, hname]
        rw [hbase]
      | some ks =>
        rw [append_lcm_some H n v ks hmem,
          alistUpdate_lookup_ne _ _ _ _ hne2, hq]
    | some ks2 =>
      have hmemq := alistLookup_mem _ _ _ hq
      cases hmem : alistLookup (jsToLower n) H.lowerCaseMap with
      | none =>
        rw [append_lcm_none H n v hmem, alistLookup_append_some _ _ _ _ hq]
        dsimp only
        exact List.map_congr_left fun k hk => by
          rw [holdlook _ hmemq k hk]
      | some ks =>
        rw [append_lcm_some H n v ks hmem,
          alistUpdate_lookup_ne _ _ _ _ hne2, hq]
        dsimp only
        exact List.map_congr_left fun k hk => by
          rw [holdlook _ hmemq k hk]

theorem foldl_append_characterisation (l : List Header) :
    ∀ H : HeadersMap, HeadersMapInv H →
      HeadersMapInv (l.foldl (fun H h => H.append h.name h.value) H) ∧
      ∀ name, (l.foldl (fun H h => H.append h.name h.value) H).getAll name =
        H.getAll name ++
          (l.filter fun h =>
            decide (jsToLower h.name = jsToLower name)).map Header.value := by
  induction l with
  | nil =>
    intro H hInv
    exact ⟨hInv, fun name => by simp⟩
  | cons e t ih =>
    intro H hInv
    have hstep := inv_append H hInv e.name e.value
    obtain ⟨ihInv, ihGA⟩ := ih (H.append e.name e.value) hstep
    rw [List.foldl_cons]
    refine ⟨ihInv, fun name => ?_⟩
    rw [ihGA name, getAll_append H hInv e.name e.value name, List.filter_cons]
    by_cases hp : jsToLower e.name = jsToLower name
    · simp [hp]
    · simp [hp]

theorem inv_ofEntries (l : List Header) :
    HeadersMapInv (HeadersMap.ofEntries l) :=
  (foldl_append_characterisation l HeadersMap.empty inv_empty).1

theorem getAll_ofEntries (l : List Header) (name : List Char) :
    (HeadersMap.ofEntries l).getAll name =
      (l.filter fun h =>
        decide (jsToLower h.name = jsToLower name)).map Header.value := by
  have h := (foldl_append_characterisation l HeadersMap.empty inv_empty).2 name
  unfold HeadersMap.ofEntries
  rw [h]
  have : HeadersMap.empty.getAll name = [] := rfl
  rw [this, List.nil_append]

theorem get_eq_join (H : HeadersMap) (hInv : HeadersMapInv H)
    (name : List Char) (h : H.has name = true) :
    H.get name = some (joinCommaSpace (H.getAll name)) := by
  obtain ⟨hkeys, hlcm⟩ := hInv
  unfold HeadersMap.has at h
  obtain ⟨ks, hks⟩ := Option.isSome_iff_exists.mp h
  have hmem := alistLookup_mem _ _ _ hks
  obtain ⟨hne, hres⟩ := hlcm _ hmem
  unfold HeadersMap.get HeadersMap.getAll
  dsimp only
  rw [hks]
  rcases ks with _ | ⟨k1, ks'⟩
  · exact absurd rfl hne
  rcases ks' with _ | ⟨k2, ks''⟩
  · obtain ⟨hdr, hh⟩ := hres k1 (by simp)
    simp [hh, joinCommaSpace]
  · rfl

/-- C8 counterexample: two entries under the identical name `Set-Cookie`
give `getAll` two values, while `names()` deduplicates the repeated name, so
the lowercase-matching count over `names()` is 1. -/
theorem C8_counterexample :
    (c8Dup.getAll (( "Set-Cookie").toList)).length = 2 ∧
    (c8Dup.names.filter fun n =>
      decide (jsToLower n = jsToLower (( "Set-Cookie").toList))).length = 1 := by
  decide

/-- C8 amended: for every container built from an entry list, `getAll(name)`
returns exactly the values of the entries whose lowercased name matches, so
its length is the multiplicity-counting match count (the claimed
`names()`-based count undercounts when an identical name repeats, as the
counterexample shows); and whenever the name is present, `get(name)` is
`getAll(name)` joined with a comma and space. -/
theorem C8_amended_getall_multiplicity (l : List Header) (name : List Char) :
    ((HeadersMap.ofEntries l).getAll name).length =
      (l.filter fun h =>
        decide (jsToLower h.name = jsToLower name)).length ∧
    ((HeadersMap.ofEntries l).has name = true →
      (HeadersMap.ofEntries l).get name =
        some (joinCommaSpace ((HeadersMap.ofEntries l).getAll name))) := by
  constructor
  · rw [getAll_ofEntries, List.length_map]
  · exact fun h => get_eq_join _ (inv_ofEntries l) name h

/-- C8 amended, witness on the duplicated `Set-Cookie` container. -/
theorem C8_amended_witness :
    ((HeadersMap.ofEntries
        [⟨( "Set-Cookie").toList, ( "a").toList⟩,
         ⟨( "Set-Cookie").toList, ( "b").toList⟩]).getAll
       (( "Set-Cookie").toList)).length =
      ([(⟨( "Set-Cookie").toList, ( "a").toList⟩ : Header),
        ⟨( "Set-Cookie").toList, ( "b").toList⟩].filter fun h =>
          decide (jsToLower h.name =
            jsToLower (( "Set-Cookie").toList))).length ∧
    (HeadersMap.ofEntries
        [⟨( "Set-Cookie").toList, ( "a").toList⟩,
         ⟨( "Set-Cookie").toList, ( "b").toList⟩]).get
      (( "Set-Cookie").toList) =
      some (joinCommaSpace ((HeadersMap.ofEntries
        [⟨( "Set-Cookie").toList, ( "a").toList⟩,
         ⟨( "Set-Cookie").toList, ( "b").toList⟩]).getAll
          (( "Set-Cookie").toList))) :=
  ⟨(C8_amended_getall_multiplicity _ _).1,
    (C8_amended_getall_multiplicity _ _).2 (by decide)⟩

/-! ## Claim C9 -/

theorem foldl_headers_snd (l : List Header) :
    ∀ H : HeadersMap,
      ((l.foldl (fun H h => H.append h.name h.value) H).headers).map
        Prod.snd = H.headers.map Prod.snd ++ l := by
  induction l with
  | nil => intro H; simp
  | cons e t ih =>
    intro H
    rw [List.foldl_cons, ih, append_headers]
    simp

theorem headers_snd_ofEntries (l : List Header) :
    ((HeadersMap.ofEntries l).headers).map Prod.snd = l := by
  unfold HeadersMap.ofEntries
  rw [foldl_headers_snd]
  rfl

theorem totalEntries_append (H : HeadersMap) (n v : List Char) :
    (H.append n v).totalEntries = H.totalEntries + 1 := by
  unfold HeadersMap.totalEntries
  rw [append_headers]
  simp

theorem toBytes_ofEntries (l : List Header) :
    (HeadersMap.ofEntries l).toBytes =
      utf8Encode
        ((l.map fun h => headerLineOf h ++ [chCR, chLF]).flatten ++
          [chCR, chLF]) := by
  unfold HeadersMap.toBytes headerLineOf
  rw [show ∀ M : HeadersMap, (M.headers.map fun p =>
      p.2.name ++ ( ": ").toList ++ p.2.value ++ [chCR, chLF]) =
      (M.headers.map Prod.snd).map fun h =>
        h.name ++ ( ": ").toList ++ h.value ++ [chCR, chLF]
    from fun M => by rw [List.map_map]; rfl]
  rw [headers_snd_ofEntries]

theorem utf8Encode_ascii (s : List Char) (h : ∀ c ∈ s, c.toNat < 128) :
    utf8Encode s = s.map Char.toNat := by
  induction s with
  | nil => rfl
  | cons c t ih =>
    have hc := h c (by simp)
    unfold utf8Encode at ih ⊢
    rw [List.map_cons, List.flatten_cons, ih fun c hc => h c (by simp [hc]),
      List.map_cons]
    unfold utf8EncodeChar
    rw [if_pos hc]
    rfl

theorem utf8DecodeGo_ascii (fuel : Nat) :
    ∀ s : List Char, s.length ≤ fuel → (∀ c ∈ s, c.toNat < 128) →
      utf8DecodeGo fuel (s.map Char.toNat) = s := by
  induction fuel with
  | zero =>
    intro s hlen _
    rw [List.length_eq_zero.mp (Nat.le_zero.mp hlen)]
    rfl
  | succ fuel ih =>
    intro s hlen h
    cases s with
    | nil => rfl
    | cons c t =>
      have hc := h c (by simp)
      rw [List.map_cons, utf8DecodeGo]
      have hstep : utf8Step c.toNat (t.map Char.toNat) = (Char.ofNat c.toNat, 0) := by
        unfold utf8Step
        rw [if_pos hc]
      rw [hstep]
      dsimp only
      rw [List.drop_zero, Char.ofNat_toNat,
        ih t (by simpa using Nat.le_of_succ_le_succ hlen)
          (fun c hc => h c (by simp [hc]))]

theorem utf8_roundtrip_ascii (s : List Char) (h : ∀ c ∈ s, c.toNat < 128) :
    utf8Decode (utf8Encode s) = s := by
  rw [utf8Encode_ascii s h]
  unfold utf8Decode
  rw [List.length_map]
  exact utf8DecodeGo_ascii s.length s (Nat.le_refl _) h

theorem splitCRLF_append_crlf (line t : List Char) (h : chCR ∉ line) :
    splitCRLF (line ++ chCR :: chLF :: t) = line :: splitCRLF t := by
  induction line with
  | nil =>
    rw [List.nil_append, splitCRLF, if_pos ⟨rfl, rfl⟩]
  | cons c cs ih =>
    have hc : ¬ c = chCR := fun hc => h (by simp [hc])
    have hcs : chCR ∉ cs := fun hm => h (by simp [hm])
    cases cs with
    | nil =>
      rw [List.cons_append, List.nil_append, splitCRLF,
        if_neg (fun hp => hc hp.1)]
      rw [splitCRLF, if_pos ⟨rfl, rfl⟩]
    | cons d ds =>
      rw [List.cons_append, List.cons_append, splitCRLF,
        if_neg (fun hp => hc hp.1)]
      have := ih hcs
      rw [List.cons_append] at this
      rw [this]

theorem goodHeader_no_cr (e : Header) (hg : goodHeader e) :
    chCR ∉ headerLineOf e := by
  obtain ⟨-, hname, -, hvalue, -, -⟩ := hg
  intro hmem
  unfold headerLineOf at hmem
  rcases List.mem_append.mp hmem with hm | hm
  · rcases List.mem_append.mp hm with hm2 | hm2
    · have := hname _ hm2
      have hcr : chCR.toNat = 13 := by decide
      omega
    · have hcs : ( ": ").toList = [chColon, chSpace] := by decide
      rw [hcs] at hm2
      exact absurd (by simpa using hm2 : chCR = chColon ∨ chCR = chSpace)
        (by decide)
  · have := hvalue _ hm
    have hcr : chCR.toNat = 13 := by decide
    omega

theorem goodHeader_ascii (e : Header) (hg : goodHeader e) :
    ∀ c ∈ headerLineOf e ++ [chCR, chLF], c.toNat < 128 := by
  obtain ⟨-, hname, -, hvalue, -, -⟩ := hg
  intro c hmem
  rcases List.mem_append.mp hmem with hm | hm
  · unfold headerLineOf at hm
    rcases List.mem_append.mp hm with hm2 | hm2
    · rcases List.mem_append.mp hm2 with hm3 | hm3
      · have := hname _ hm3
        omega
      · have hcs : ( ": ").toList = [chColon, chSpace] := by decide
        rw [hcs] at hm3
        rcases (by simpa using hm3 : c = chColon ∨ c = chSpace) with rfl | rfl <;>
          decide
    · have := hvalue _ hm2
      omega
  · rcases (by simpa using hm : c = chCR ∨ c = chLF) with rfl | rfl <;> decide

theorem splitCRLF_serialised (l : List Header)
    (hgood : ∀ h ∈ l, goodHeader h) :
    splitCRLF ((l.map fun h => headerLineOf h ++ [chCR, chLF]).flatten ++
        [chCR, chLF]) =
      (l.map headerLineOf) ++ [[], []] := by
  induction l with
  | nil =>
    rw [List.map_nil, List.flatten_nil, List.nil_append, List.map_nil,
      List.nil_append]
    rw [splitCRLF, if_pos ⟨rfl, rfl⟩]
    rfl
  | cons e t ih =>
    rw [List.map_cons, List.flatten_cons, List.append_assoc,
      List.append_assoc]
    rw [show ([chCR, chLF] : List Char) ++
        ((t.map fun h => headerLineOf h ++ [chCR, chLF]).flatten ++
          [chCR, chLF]) =
        chCR :: chLF ::
          ((t.map fun h => headerLineOf h ++ [chCR, chLF]).flatten ++
            [chCR, chLF]) from rfl]
    rw [splitCRLF_append_crlf _ _ (goodHeader_no_cr e (hgood e (by simp)))]
    rw [ih fun h hm => hgood h (by simp [hm])]
    rfl

theorem jsIndexOfChar_colon (n rest : List Char)
    (h : ∀ c ∈ n, ¬ c = chColon) :
    jsIndexOfChar chColon (n ++ chColon :: rest) = some n.length := by
  induction n with
  | nil => simp [jsIndexOfChar]
  | cons c cs ih =>
    rw [List.cons_append, jsIndexOfChar, if_neg (h c (by simp)),
      ih fun c hc => h c (by simp [hc])]
    rfl

theorem jsTrim_cons_space (v : List Char) (h : jsTrim v = v) :
    jsTrim (chSpace :: v) = v := by
  unfold jsTrim at h ⊢
  rw [List.dropWhile_cons, if_pos (by decide)]
  exact h

theorem parseHeaderLine_lineOf (e : Header) (hg : goodHeader e) :
    parseHeaderLine (headerLineOf e) = some (e.name, e.value) := by
  obtain ⟨hne, hname, hvne, hvalue, hvtrim, -⟩ := hg
  have hline : headerLineOf e = e.name ++ chColon :: chSpace :: e.value := by
    unfold headerLineOf
    rw [List.append_assoc]
    rfl
  have hnocolon : ∀ c ∈ e.name, ¬ c = chColon :=
    fun c hc => (hname c hc).2.2
  have hntrim : jsTrim e.name = e.name := by
    apply jsTrim_eq_self_of
    intro c hc
    have := (hname c hc).1
    unfold isJsWhitespace
    simp
    omega
  unfold parseHeaderLine
  rw [hline, jsIndexOfChar_colon _ _ hnocolon]
  dsimp only
  rw [List.take_left, hntrim]
  rw [show e.name.length + 1 = e.name.length + 1 from rfl,
    List.drop_append 1]
  rw [List.drop_one, List.tail_cons, jsTrim_cons_space _ hvtrim]
  rw [if_neg hne, if_neg hvne]

theorem headerLineOf_ne_nil (e : Header) (hg : goodHeader e) :
    ¬ headerLineOf e = [] := by
  intro hc
  have : headerLineOf e ≠ [] := by
    unfold headerLineOf
    cases hn : e.name with
    | nil => exact absurd hn hg.1
    | cons a t => simp
  exact this hc

theorem headerLineOf_length (e : Header) :
    (headerLineOf e).length = e.name.length + 2 + e.value.length := by
  unfold headerLineOf
  simp
  omega

theorem parseHeadersLoop_serialised (l : List Header) :
    ∀ H : HeadersMap, (∀ h ∈ l, goodHeader h) →
      H.totalEntries + l.length ≤ 256 →
      parseHeadersLoop 256 8192 ((l.map headerLineOf) ++ [[], []]) H =
        some (l.foldl (fun H h => H.append h.name h.value) H) := by
  induction l with
  | nil =>
    intro H _ _
    rw [List.map_nil, List.nil_append, List.foldl_nil]
    rw [parseHeadersLoop]
    norm_num
  | cons e t ih =>
    intro H hgood hcount
    have hge := hgood e (by simp)
    rw [List.map_cons, List.cons_append, parseHeadersLoop]
    have hlen : ¬ (headerLineOf e).length > 8192 := by
      rw [headerLineOf_length]
      have := hge.2.2.2.2.2
      omega
    rw [if_neg hlen, if_neg (headerLineOf_ne_nil e hge)]
    have hcap : ¬ H.totalEntries ≥ 256 := by
      simp at hcount ⊢
      omega
    rw [if_neg hcap, parseHeaderLine_lineOf e hge]
    dsimp only
    rw [ih (H.append e.name e.value) (fun h hm => hgood h (by simp [hm]))
      (by rw [totalEntries_append]; simp at hcount ⊢; omega)]
    rw [List.foldl_cons]

theorem equals_ofEntries_self (l : List Header) :
    (HeadersMap.ofEntries l).equals (HeadersMap.ofEntries l) = true := by
  unfold HeadersMap.equals
  rw [if_neg (by simp)]
  rw [List.all_eq_true]
  intro p hp
  have hmem : p.2 ∈ l := by
    rw [← headers_snd_ofEntries l]
    exact List.mem_map_of_mem Prod.snd hp
  rw [List.any_eq_true]
  refine ⟨p.2.value, ?_, by simp⟩
  rw [getAll_ofEntries]
  apply List.mem_map_of_mem
  exact List.mem_filter.mpr ⟨hmem, by simp⟩

/-- C9 amended: for every container whose entries have non-empty
visible-ASCII colon-free names and non-empty trim-stable ASCII values, with
each serialised line within the 8192-byte limit and at most 256 entries,
serialising with `toBytes` and reparsing with `parseHeaders` yields a
container equal to the original under `equals` (indeed the identical
container). -/
theorem C9_amended_roundtrip (l : List Header)
    (hgood : ∀ h ∈ l, goodHeader h) (hcount : l.length ≤ 256) :
    ∃ H2, parseHeaders (utf8Decode ((HeadersMap.ofEntries l).toBytes))
        256 8192 = some H2 ∧
      H2.equals (HeadersMap.ofEntries l) = true := by
  refine ⟨HeadersMap.ofEntries l, ?_, equals_ofEntries_self l⟩
  rw [toBytes_ofEntries]
  have hascii : ∀ c ∈ (l.map fun h =>
      headerLineOf h ++ [chCR, chLF]).flatten ++ [chCR, chLF],
      c.toNat < 128 := by
    intro c hc
    rcases List.mem_append.mp hc with hm | hm
    · obtain ⟨piece, hpiece, hcp⟩ := List.mem_flatten.mp hm
      obtain ⟨e, he, rfl⟩ := List.mem_map.mp hpiece
      exact goodHeader_ascii e (hgood e he) c hcp
    · rcases (by simpa using hm : c = chCR ∨ c = chLF) with rfl | rfl <;>
        decide
  rw [utf8_roundtrip_ascii _ hascii]
  unfold parseHeaders
  rw [splitCRLF_serialised l hgood]
  exact parseHeadersLoop_serialised l HeadersMap.empty hgood
    (by simpa [HeadersMap.totalEntries, HeadersMap.empty] using hcount)

/-- C9 amended, witness on a one-entry `Host` container. -/
theorem C9_amended_witness :
    ∃ H2, parseHeaders (utf8Decode ((HeadersMap.ofEntries
        [⟨( "Host").toList, ( "example.com").toList⟩]).toBytes))
        256 8192 = some H2 ∧
      H2.equals (HeadersMap.ofEntries
        [⟨( "Host").toList, ( "example.com").toList⟩]) = true :=
  C9_amended_roundtrip _
    (by
      intro h hm
      rw [List.mem_singleton] at hm
      subst hm
      unfold goodHeader
      exact ⟨by decide, by decide, by decide, by decide, by decide,
        by decide⟩)
    (by decide)

/-- C9 counterexample: a container whose value carries a leading space
serialises to `A:  x`, which parses back with the value trimmed to `x`, and
the reparsed container is not `equals` to the original. -/
theorem C9_counterexample :
    (parseHeaders (utf8Decode c9LeadingSpace.toBytes) 256 8192).map
      (fun H2 => H2.equals c9LeadingSpace) = some false := by decide

/-! ## Claim C10 -/

/-- C10 counterexample: a bodiless request is emitted with
`contentLength = undefined` (the source's `this.body?.length` on a null
body), not with the body's byte length 0. -/
theorem C10_counterexample :
    (c10Run.2.map fun m => m.contentLength) = [none] ∧
    (c10Run.2.map fun m => m.body.length) = [0] ∧
    (c10Run.2.map fun m => decide (m.contentLength = some m.body.length)) =
      [false] := by decide

/-- C10 amended: every message `createCompleteMessage` builds carries
`transferEncoding = "content-length"` (even when the body was framed by
chunked encoding), its body is the accumulated body bytes (empty when none
were accumulated), and its `contentLength` is the accumulated body's length
when a body exists and is absent (`undefined`) when no body bytes were ever
appended. -/
theorem C10_amended_content_length_of_accumulated_body (p : HttpParser) :
    ∃ m, (p.createCompleteMessage).2.message = some m ∧
      m.transferEncoding = TransferEncoding.CONTENT_LENGTH ∧
      m.body = p.body.getD [] ∧
      m.contentLength = p.body.map List.length := by
  unfold HttpParser.createCompleteMessage
  split
  · exact ⟨_, rfl, rfl, rfl, rfl⟩
  · exact ⟨_, rfl, rfl, rfl, rfl⟩

end HttpParserModel
